import Mathlib

/-!
Shallow embedding of the RenameUtility core engine
(`src/Logic/RenamerLogic_{Utils,Plan,Execute,Undo,Backup}.cpp`).

Strings are modelled as Lean `String` / `List Char`; `std::filesystem`
paths as plain strings; machine `int` as mathematical `Int` with explicit
32-bit range checks exactly where the source performs them; the
filesystem as either a finite listing (for the planning scan) or a map
from paths to entries (for execution, undo and backup deletion).
C++ exceptions that the source can raise are modelled with `Except`.
-/

namespace RenameUtility

/-- Models `std::tolower` over `unsigned char` in the C locale: only
ASCII capitals are mapped (Lean `Char.toLower` restricted to ASCII is
identical on the byte range the program handles). -/
def lowerChar (c : Char) : Char :=
  if 'A' ≤ c ∧ c ≤ 'Z' then Char.ofNat (c.toNat + 32) else c

/-- Models `ToLower` from `RenamerLogic_Utils.cpp`: lower-cases every
character of the string. -/
def toLowerStr (s : String) : String :=
  ⟨s.data.map lowerChar⟩

/-- Models `RenamerLogic::iequals`: case-insensitive equality, i.e. equal
length and per-character equality after `std::tolower`. -/
def iequals (a b : String) : Bool :=
  a.data.map lowerChar == b.data.map lowerChar

/-- Character equality used by the exact (case-sensitive) searches. -/
def charEq (a b : Char) : Bool := a == b

/-- Case-insensitive character comparison used by `std::search` in
`PerformFindReplace`. -/
def charIEq (a b : Char) : Bool := lowerChar a == lowerChar b

/-- Whether `pat` is a prefix of `l` under the character comparison
`eqc` (the inner loop of `subject.find` / `std::search`). -/
def matchesHere (eqc : Char → Char → Bool) : List Char → List Char → Bool
  | [], _ => true
  | _ :: _, [] => false
  | p :: ps, c :: cs => eqc p c && matchesHere eqc ps cs

/-- Index of the first occurrence of `pat` in `l` under `eqc`
(`std::string::find` / `std::search` returning an offset), if any. -/
def findFrom (eqc : Char → Char → Bool) (pat : List Char) : List Char → Option Nat
  | [] => if matchesHere eqc pat [] then some 0 else none
  | c :: cs =>
    if matchesHere eqc pat (c :: cs) then some 0
    else (findFrom eqc pat cs).map (· + 1)

/-- First occurrence of `pat` in `l` at an index `≥ pos`
(`subject.find(pat, pos)`). -/
def findFromAt (eqc : Char → Char → Bool) (pat l : List Char) (pos : Nat) : Option Nat :=
  (findFrom eqc pat (l.drop pos)).map (· + pos)

/-- One splice step of the replacement loops: text before `fp`, then
`repl`, then the text after the replaced occurrence. -/
def spliceAt (l repl : List Char) (fp patLen : Nat) : List Char :=
  l.take fp ++ repl ++ l.drop (fp + patLen)

/-- Models the placeholder replacement `while` loops of
`ReplacePlaceholders`: find `pat` from `pos`, splice in `repl`, continue
searching from just past the inserted text.  `fuel` bounds the iteration
count; every call site passes `subject.length + 1`, which is sufficient
because each iteration consumes an occurrence of the non-empty `pat`
strictly before the next search position. -/
def phLoop (pat repl : List Char) : Nat → List Char → Nat → List Char
  | 0, subj, _ => subj
  | fuel + 1, subj, pos =>
    match findFromAt charEq pat subj pos with
    | none => subj
    | some fp => phLoop pat repl fuel (spliceAt subj repl fp pat.length) (fp + repl.length)

/-- Run a placeholder replacement loop from position 0 on a string. -/
def phReplaceAll (pat repl : String) (subject : String) : String :=
  ⟨phLoop pat.data repl.data (subject.length + 1) subject.data 0⟩

/-- Models the literal (non-regex) loop of `PerformFindReplace`,
including the `pos < subject.length()` loop condition.  `fuel` bounds the
iteration count as in `phLoop`. -/
def frLoop (eqc : Char → Char → Bool) (find repl : List Char) :
    Nat → List Char → Nat → List Char
  | 0, subj, _ => subj
  | fuel + 1, subj, pos =>
    if pos < subj.length then
      match findFromAt eqc find subj pos with
      | none => subj
      | some fp => frLoop eqc find repl fuel (spliceAt subj repl fp find.length) (fp + repl.length)
    else subj

/-- Models `RenamerLogic::PerformFindReplace` in its literal mode (the
`useRegex = false` default used by the planner): empty `find` or empty
`subject` returns the subject unchanged, otherwise non-overlapping
left-to-right replacement advancing past each inserted string. -/
def performFindReplace (subject find repl : String) (caseSensitive : Bool) : String :=
  if find.isEmpty || subject.isEmpty then subject
  else ⟨frLoop (if caseSensitive then charEq else charIEq) find.data repl.data
          (subject.length + 1) subject.data 0⟩

/-- Digit test matching `\d` of the source regexes. -/
def isDigitCh (c : Char) : Bool := '0' ≤ c && c ≤ '9'

/-- Numeric value of a digit string (the exact value `std::stoll` /
`std::stoi` parse from a `\d+` capture). -/
def digitsVal (l : List Char) : Nat :=
  l.foldl (fun acc c => acc * 10 + (c.toNat - 48)) 0

/-- The trailing digit run of a character list: the maximal run of
digits that is followed only by non-digits up to the end.  This is the
capture group of the regex `.*?(\d+)[^\d]*$` in `ParseLastNumber`. -/
def lastDigitRun (l : List Char) : List Char :=
  ((l.reverse.dropWhile (fun c => !isDigitCh c)).takeWhile isDigitCh).reverse

/-- Models `RenamerLogic::ParseLastNumber`: value of the final maximal
digit run, or `none` when there is no digit or the value exceeds the
32-bit signed `int` range (the source parses with `std::stoll` inside a
`try` block and range-checks against `INT_MIN`/`INT_MAX`; digit runs are
non-negative so only the upper bound can reject). -/
def parseLastNumber (s : String) : Option Int :=
  let run := lastDigitRun s.data
  if run.isEmpty then none
  else if digitsVal run ≤ 2147483647 then some (digitsVal run) else none

/-- The ten decimal digit characters. -/
def decDigits : List Char := ['0', '1', '2', '3', '4', '5', '6', '7', '8', '9']

/-- The character for a decimal digit value. -/
def digitChar (d : Nat) : Char := decDigits.getD d '0'

/-- Decimal digit characters of a positive natural, most significant
first (helper for `FormatNumber` / `std::to_string`).  `fuel` is
structural; `n + 1` is always sufficient. -/
def natDigitsAux : Nat → Nat → List Char
  | 0, _ => []
  | _ + 1, 0 => []
  | fuel + 1, n + 1 =>
    natDigitsAux fuel ((n + 1) / 10) ++ [digitChar ((n + 1) % 10)]

/-- Decimal representation of a natural number. -/
def natStr (n : Nat) : List Char :=
  if n = 0 then ['0'] else natDigitsAux (n + 1) n

/-- Models `RenamerLogic::FormatNumber`: negative numbers are printed
without padding (`std::to_string`); otherwise the decimal digits are
left-padded with zeros to `width` (minimum 1, as the source clamps). -/
def formatNumber (number : Int) (width : Int) : String :=
  if number < 0 then ⟨'-' :: natStr number.natAbs⟩
  else
    let w := max 1 width.toNat
    let ds := natStr number.natAbs
    ⟨List.replicate (w - ds.length) '0' ++ ds⟩

/-- Index of the last occurrence of `c` in `l` (`std::string::find_last_of`
for a single character), if any. -/
def findLastIdx (c : Char) (l : List Char) : Option Nat :=
  (findFrom charEq [c] l.reverse).map (fun i => l.length - 1 - i)

/-- Models the anonymous-namespace `sanitise_char`: characters that are
invalid in filenames, and control characters, become an underscore. -/
def sanitiseChar (c : Char) : Char :=
  if c.toNat ≤ 31 || c ∈ ['\\', '/', ':', '*', '?', '"', '<', '>', '|'] then '_' else c

/-- Models the anonymous-namespace `sanitise_stem`. -/
def sanitiseStem (stem : List Char) : List Char :=
  if stem.isEmpty then ['_']
  else
    let out := stem.map sanitiseChar
    if out.isEmpty || out = ['.'] || out = ['.', '.'] then ['_'] else out

/-- Stem/extension split of a filename following `fs::path::stem` /
`fs::path::extension`: `"."` and `".."` and dot-less names have no
extension; a leading-dot name whose only dot is the leading one (a
dotfile) also has none; otherwise the split is at the last dot, the
extension keeping it. -/
def splitStemExt (name : List Char) : List Char × List Char :=
  if name = ['.'] || name = ['.', '.'] then (name, [])
  else
    match findLastIdx '.' name with
    | none => (name, [])
    | some 0 => (name, [])
    | some i => (name.take i, name.drop i)

/-- Case conversion modes of the engine. -/
inductive CaseConversionMode where
  | NoChange | ToUpper | ToLower
deriving DecidableEq, Repr

/-- ASCII upper-casing matching `std::toupper`. -/
def upperChar (c : Char) : Char :=
  if 'a' ≤ c ∧ c ≤ 'z' then Char.ofNat (c.toNat - 32) else c

/-- Models `RenamerLogic::ApplyCaseConversion`: identity for `NoChange`
or an empty name; dotfiles (leading dot, stem equal to the whole name)
are left alone; otherwise only the stem is case-converted and the
extension is preserved. -/
def applyCaseConversion (filename : String) (mode : CaseConversionMode) : String :=
  if mode = CaseConversionMode.NoChange || filename.isEmpty then filename
  else
    let parts := splitStemExt filename.data
    if filename.data.head? = some '.' && parts.1 = filename.data then filename
    else
      match mode with
      | CaseConversionMode.ToUpper => ⟨parts.1.map upperChar ++ parts.2⟩
      | CaseConversionMode.ToLower => ⟨parts.1.map lowerChar ++ parts.2⟩
      | CaseConversionMode.NoChange => filename

/-- Wildcard matching of `ConvertWildcardToRegex` composed with
`std::regex_match`: the produced regex is anchored (`^...$`), `*`
becomes `.*`, `?` becomes `.`, and every other character is escaped to a
literal, so whole-string glob semantics are exact.  `fuel` bounds the
backtracking depth; `pat.length + s.length + 1` always suffices. -/
def globMatchF : Nat → List Char → List Char → Bool
  | 0, _, _ => false
  | _ + 1, [], s => s.isEmpty
  | fuel + 1, p :: ps, s =>
    if p = '*' then
      globMatchF fuel ps s ||
        (match s with
         | [] => false
         | _ :: cs => globMatchF fuel (p :: ps) cs)
    else
      match s with
      | [] => false
      | c :: cs => (p = '?' || p = c) && globMatchF fuel ps cs

/-- Case-insensitive glob match (the planner assigns the regex with
`std::regex::icase`), with the empty pattern matching anything as
`ConvertWildcardToRegex` maps it to `^.*$`. -/
def wildcardMatches (pattern filename : String) : Bool :=
  if pattern.isEmpty then true
  else
    let p := pattern.data.map lowerChar
    let s := filename.data.map lowerChar
    globMatchF (p.length + s.length + 1) p s

/-- Substring test (`std::string::find(...) != npos`). -/
def containsSub (pat subject : String) : Bool :=
  (findFrom charEq pat.data subject.data).isSome

/-- The two renaming modes of the engine. -/
inductive RenamingMode where
  | DirectoryScan | ManualSelection
deriving DecidableEq, Repr

/-- Environment for the impure inputs of `ReplacePlaceholders`: the
current local time components, the pseudo-random stream, and the file
metadata reads used by `<file_size>`, `<file_size_kb>` and
`<modified_date>`. -/
structure Env where
  yyyy : String
  mon : String
  dd : String
  hh : String
  mins : String
  ss : String
  randIdx : Nat → Nat
  fileExists : String → Bool
  fileSizeStr : String → String
  fileSizeKbStr : String → String
  modDateStr : String → String

/-- The alphanumeric alphabet the `<random:N>` replacement draws from. -/
def alphanumChars : List Char :=
  "0123456789ABCDEFGHIJKLMNOPQRSTUVWXYZabcdefghijklmnopqrstuvwxyz".data

/-- Draws `n` pseudo-random alphanumeric characters starting at draw
counter `ctr` (each draw is `alphanumChars[dist(rng)]`). -/
def genRandomChars (env : Env) (ctr n : Nat) : List Char :=
  (List.range n).map (fun k => alphanumChars.getD (env.randIdx (ctr + k) % 62) '0')

/-- First match of the regex `<random:(\d+)>` in `l`
(`std::regex_search`): the earliest index where the literal `<random:`
is followed by at least one digit and then `>`; returns the index and
the digit capture. -/
def findRandomTok : List Char → Option (Nat × List Char)
  | [] => none
  | c :: cs =>
    let l := c :: cs
    if matchesHere charEq ('<' :: 'r' :: 'a' :: 'n' :: 'd' :: 'o' :: 'm' :: ':' :: []) l then
      let rest := l.drop 8
      let ds := rest.takeWhile isDigitCh
      if !ds.isEmpty && (rest.drop ds.length).head? = some '>' then some (0, ds)
      else (findRandomTok cs).map (fun p => (p.1 + 1, p.2))
    else (findRandomTok cs).map (fun p => (p.1 + 1, p.2))

/-- Models the `<random:N>` replacement loop.  `std::stoi` on the digit
capture throws `std::out_of_range` when the value exceeds `INT_MAX`;
this uncaught exception is the `Except.error` case.  Otherwise `N` is
capped at 64 and that many random alphanumeric characters replace the
token.  `fuel` bounds the iterations; each iteration removes exactly one
`<` and inserts none, so `count '<' + 1` suffices. -/
def randLoop (env : Env) : Nat → Nat → List Char → Except String (List Char)
  | 0, _, subj => Except.ok subj
  | fuel + 1, ctr, subj =>
    match findRandomTok subj with
    | none => Except.ok subj
    | some (i, ds) =>
      if digitsVal ds > 2147483647 then
        Except.error "stoi out_of_range in random placeholder"
      else
        let n := min (digitsVal ds) 64
        randLoop env fuel (ctr + n) (spliceAt subj (genRandomChars env ctr n) i (9 + ds.length))

/-- Runs the `<random:N>` loop on a string. -/
def randomReplace (env : Env) (s : String) : Except String String :=
  (randLoop env (s.data.count '<' + 1) 0 s.data).map (fun l => ⟨l⟩)

/-- The final sanitisation step of `ReplacePlaceholders`: split at the
last dot when it is neither first nor last, sanitise the stem, and fall
back to `"_"` when nothing printable remains. -/
def sanitizeResult (r : String) : String :=
  let l := r.data
  let parts :=
    match findLastIdx '.' l with
    | some i => if i ≠ 0 ∧ i + 1 < l.length then (l.take i, l.drop i) else (l, ([] : List Char))
    | none => (l, [])
  let s := sanitiseStem parts.1
  if (s = ['_'] ∧ parts.2 = []) ∨ (s = [] ∧ parts.2 = []) then "_" else ⟨s ++ parts.2⟩

/-- The six current-time replacements, applied in source order. -/
def timeReplace (env : Env) (r : String) : String :=
  phReplaceAll "<ss>" env.ss
    (phReplaceAll "<mm>" env.mins
      (phReplaceAll "<hh>" env.hh
        (phReplaceAll "<DD>" env.dd
          (phReplaceAll "<MM>" env.mon
            (phReplaceAll "<YYYY>" env.yyyy r)))))

/-- Structural floor-log-base-10 recursion; `fuel ≥ n` always suffices
since the argument divides by 10 each step. -/
def log10fuel : Nat → Nat → Nat
  | 0, _ => 0
  | fuel + 1, n => if n ≤ 9 then 0 else log10fuel fuel (n / 10) + 1

/-- Exact `floor(log10 n)` for positive `n` (the mathematical value of
the source's `std::floor(std::log10(...))` on the `int` range, where the
double computation is exact). -/
def floorLog10 (n : Nat) : Nat := log10fuel n n

/-- The manual-mode zero-padding width for `<index>`:
`floor(log10(totalManualFiles)) + 1` when the total is positive, else 1,
clamped to at least 1. -/
def manualIndexWidth (totalManualFiles : Nat) : Nat :=
  max 1 (if totalManualFiles > 0 then floorLog10 totalManualFiles + 1 else 1)

/-- Models `RenamerLogic::ReplacePlaceholders`.  The replacement phases
run in source order: `<parent_dir>`; the file-metadata tokens when a
non-empty, existing `fullFilePath` was supplied; `<random:N>` (which can
raise the `stoi` exception); the date/time tokens; the mode-specific
name/number/index tokens; clearing of the tokens foreign to the mode;
and finally stem sanitisation. -/
def replacePlaceholders (env : Env) (pattern : String) (mode : RenamingMode)
    (index : Int) (totalManualFiles : Nat)
    (originalFullName originalNameStem originalExtension : String)
    (dirScanOriginalNum dirScanNewNum : Option Int) (dirScanNumberWidth : Int)
    (parentDirName : String) (fullFilePath : String) : Except String String :=
  let _ := originalFullName
  let r0 := phReplaceAll "<parent_dir>" parentDirName pattern
  let r1 :=
    if fullFilePath ≠ "" && env.fileExists fullFilePath then
      phReplaceAll "<modified_date>" (env.modDateStr fullFilePath)
        (phReplaceAll "<file_size_kb>" (env.fileSizeKbStr fullFilePath)
          (phReplaceAll "<file_size>" (env.fileSizeStr fullFilePath) r0))
    else r0
  (randomReplace env r1).map (fun r2 =>
    let r3 :=
      if containsSub "<YYYY>" r2 || containsSub "<MM>" r2 || containsSub "<DD>" r2 ||
          containsSub "<hh>" r2 || containsSub "<mm>" r2 || containsSub "<ss>" r2 then
        timeReplace env r2
      else r2
    let r4 :=
      match mode with
      | RenamingMode.DirectoryScan =>
        let newNumStr :=
          match dirScanNewNum with
          | some v => formatNumber v dirScanNumberWidth
          | none => ""
        let origNumStr :=
          match dirScanOriginalNum with
          | some v => formatNumber v dirScanNumberWidth
          | none => ""
        phReplaceAll "<index>" ""
          (phReplaceAll "<orig_name>" originalNameStem
            (phReplaceAll "<orig_num>" origNumStr
              (phReplaceAll "<num>" newNumStr
                (phReplaceAll "<orig_ext>" originalExtension
                  (phReplaceAll "<ext>" originalExtension r3)))))
      | RenamingMode.ManualSelection =>
        let indexStr := formatNumber index (manualIndexWidth totalManualFiles)
        phReplaceAll "<orig_num>" ""
          (phReplaceAll "<num>" ""
            (phReplaceAll "<ext>" originalExtension
              (phReplaceAll "<orig_ext>" originalExtension
                (phReplaceAll "<orig_name>" originalNameStem
                  (phReplaceAll "<index>" indexStr r3)))))
    sanitizeResult r4)

/-- A filesystem entry: a regular file (with its size/content tag) or a
directory.  Other entry kinds the scanner skips are not distinguished
from directories by any check the engine performs on scanned entries. -/
inductive Entry where
  | file (content : Nat)
  | dir
deriving DecidableEq, Repr

/-- A finite filesystem listing: full path to entry. -/
def Disk : Type := List (String × Entry)

/-- Path lookup on a listing (`fs::exists` / `fs::is_regular_file` /
`fs::is_directory` are derived from it). -/
def diskLookup (d : Disk) (p : String) : Option Entry :=
  (d.find? (fun e => e.1 == p)).map (fun e => e.2)

/-- Mirrors the C++ `RenameOperation` struct. -/
structure RenameOperation where
  OldName : String
  NewName : String
  OldFullPath : String
  NewFullPath : String
  Number : Option Int
  Index : Int
deriving DecidableEq, Repr

/-- Mirrors the C++ `PotentialOverwrite` struct. -/
structure PotentialOverwrite where
  SourceFile : String
  TargetFile : String
  TargetPath : String
deriving DecidableEq, Repr

/-- Mirrors the C++ `InputParams` struct. -/
structure InputParams where
  mode : RenamingMode
  targetDirectory : String
  namingPattern : String
  findText : String
  replaceText : String
  findCaseSensitive : Bool
  caseConversionMode : CaseConversionMode
  increment : Int
  filenamePattern : String
  filterExtensions : String
  highestNumber : Int
  lowestNumber : Int
  recursiveScan : Bool
  manualFiles : List String
deriving Repr

/-- Mirrors the C++ `OutputResults` struct. -/
structure OutputResults where
  renamePlan : List RenameOperation
  missingSourceFilesLog : List String
  potentialOverwritesLog : List PotentialOverwrite
  generalInfoLog : List String
  warningLog : List String
  errorLog : List String
  success : Bool
deriving DecidableEq, Repr

/-- Filename component of a path (`fs::path::filename`): the text after
the last slash. -/
def filenameOf (p : String) : String :=
  ⟨(p.data.reverse.takeWhile (fun c => c ≠ '/')).reverse⟩

/-- Parent component of a path (`fs::path::parent_path`): the text
before the last slash, empty when there is none. -/
def parentOf (p : String) : String :=
  match p.data.reverse.dropWhile (fun c => c ≠ '/') with
  | [] => ""
  | _ :: t => ⟨t.reverse⟩

/-- Path concatenation (`parent / name`). -/
def joinPath (dir name : String) : String :=
  if dir = "" then name else dir ++ "/" ++ name

/-- Right-trim of whitespace, as `wxString::Trim()` performs on each
extension-filter token. -/
def trimRightWs (s : String) : String :=
  ⟨(s.data.reverse.dropWhile (fun c => c = ' ' ∨ c = '\t' ∨ c = '\n' ∨ c = '\r')).reverse⟩

/-- Splits on commas (`wxStringTokenizer` with a `","` delimiter);
`cur` accumulates the current token in reverse. -/
def splitCommaAux : List Char → List Char → List (List Char)
  | [], cur => [cur.reverse]
  | c :: cs, cur =>
    if c = ',' then cur.reverse :: splitCommaAux cs [] else splitCommaAux cs (c :: cur)

/-- Comma-separated tokens of a string. -/
def splitComma (s : String) : List String :=
  (splitCommaAux s.data []).map (fun l => ⟨l⟩)

/-- Parses the comma-separated extension filter into the lower-cased,
dot-prefixed allow-set. -/
def parseExtFilter (filterExtensions : String) : List String :=
  (splitComma filterExtensions).foldl
    (fun acc tok =>
      let e := toLowerStr (trimRightWs tok)
      if e = "" then acc
      else
        let e := if e.data.head? = some '.' then e else "." ++ e
        if e ∈ acc then acc else acc ++ [e])
    []

/-- The display width for `<num>`/`<orig_num>` in scan mode: derived
from the extreme absolute values reachable through the filter bounds and
the increment, clamped to `[2, 9]`; plain width 2 when no numeric filter
is active. -/
def computeNumberWidth (params : InputParams) : Nat :=
  if params.lowestNumber ≠ 0 ∨ params.highestNumber ≠ 0 then
    let maxAbsVal := max params.highestNumber.natAbs params.lowestNumber.natAbs
    let potMax := (params.highestNumber + (params.increment.natAbs : Int)).natAbs
    let potMin := (params.lowestNumber - (params.increment.natAbs : Int)).natAbs
    let m := max (max maxAbsVal potMax) potMin
    let w := if m > 0 then floorLog10 m + 1 else 1
    min 9 (max 2 w)
  else 2

/-- Whether `p` lies strictly below directory `target` (what the
recursive directory walk yields). -/
def isUnderDir (target p : String) : Bool :=
  matchesHere charEq (target ++ "/").data p.data

/-- The directory-walk result: entries directly in (non-recursive) or
strictly below (recursive) the target directory, in discovery order. -/
def scanEntries (disk : Disk) (params : InputParams) : List (String × Entry) :=
  disk.filter (fun e =>
    if params.recursiveScan then isUnderDir params.targetDirectory e.1
    else parentOf e.1 == params.targetDirectory)

/-- Strict lexicographic comparison of character lists: the model of
`fs::path::operator<` on the slash-joined path strings this engine
builds (and of `std::string` comparison where the source compares raw
strings). -/
def strLtb : List Char → List Char → Bool
  | [], [] => false
  | [], _ :: _ => true
  | _ :: _, [] => false
  | a :: as, b :: bs => if a < b then true else if b < a then false else strLtb as bs

/-- Strict path order. -/
def pathLt (a b : String) : Bool := strLtb a.data b.data

/-- Insertion into the path-ordered found map (`std::map<fs::path, ...>`);
assignment to an existing key overwrites its value. -/
def insertFound (x : String × Option Int) : List (String × Option Int) → List (String × Option Int)
  | [] => [x]
  | y :: ys =>
    if pathLt x.1 y.1 then x :: y :: ys
    else if x.1 = y.1 then x :: ys
    else y :: insertFound x ys

/-- Whether the naming pattern or the active numeric filter requires
parsing the trailing number of each filename. -/
def needsNumParsing (params : InputParams) : Bool :=
  (params.lowestNumber ≠ 0 ∨ params.highestNumber ≠ 0 : Bool) ||
    containsSub "<num>" params.namingPattern || containsSub "<orig_num>" params.namingPattern

/-- The trailing number the scanner associates with a candidate file
(parsed only when a numeric filter or numeric placeholder needs it). -/
def scanNum (params : InputParams) (filename : String) : Option Int :=
  if needsNumParsing params then parseLastNumber filename else none

/-- Whether one scanned entry passes every scan filter: it must be a
regular file whose name matches the wildcard, whose (lower-cased)
extension passes the filter when active, and whose parsed trailing
number lies in the range filter when active. -/
def scanKeep (params : InputParams) (extSet : List String) (useExtFilter : Bool)
    (e : String × Entry) : Bool :=
  match e.2 with
  | Entry.dir => false
  | Entry.file _ =>
    let filename := filenameOf e.1
    let extension := toLowerStr ⟨(splitStemExt filename.data).2⟩
    wildcardMatches params.filenamePattern filename &&
    (!useExtFilter || extension ∈ extSet) &&
    (if params.lowestNumber ≠ 0 ∨ params.highestNumber ≠ 0 then
      match scanNum params filename with
      | some v => params.lowestNumber ≤ v && v ≤ params.highestNumber
      | none => false
     else true)

/-- Decides whether one scanned entry qualifies for the found map,
paired with its parsed trailing number. -/
def scanQual (params : InputParams) (extSet : List String) (useExtFilter : Bool)
    (e : String × Entry) : Option (String × Option Int) :=
  if scanKeep params extSet useExtFilter e then
    some (e.1, scanNum params (filenameOf e.1))
  else none

/-- Processes one scanned entry: a qualifying entry is inserted into the
path-ordered found map. -/
def scanProcessEntry (params : InputParams) (extSet : List String) (useExtFilter : Bool)
    (acc : List (String × Option Int)) (e : String × Entry) : List (String × Option Int) :=
  match scanQual params extSet useExtFilter e with
  | some x => insertFound x acc
  | none => acc

/-- The full scan phase: fold every walked entry into the ordered found
map. -/
def buildFound (params : InputParams) (extSet : List String) (useExtFilter : Bool)
    (entries : List (String × Entry)) : List (String × Option Int) :=
  entries.foldl (scanProcessEntry params extSet useExtFilter) []

/-- The mutable state threaded through the plan-generation loops. -/
structure PlanState where
  plan : List RenameOperation
  targetsLower : List String
  missing : List String
  overwrites : List PotentialOverwrite
  general : List String
  warn : List String
  err : List String
  success : Bool
deriving Repr

/-- The 32-bit overflow test on `original number + increment` performed
with `long long` arithmetic in the source. -/
def incOverflow (increment : Int) : Option Int → Bool
  | some n =>
    !((decide (-2147483648 ≤ n + increment)) && (decide (n + increment ≤ 2147483647)))
  | none => false

/-- The directory-scan name-generation pipeline for one file:
placeholders, then find/replace, then case conversion (an error is the
uncaught placeholder exception). -/
def genNameDir (params : InputParams) (env : Env) (numberWidth : Nat)
    (currentPath : String) (origNum : Option Int) : Except String String :=
  let originalFilename := filenameOf currentPath
  let parts := splitStemExt originalFilename.data
  (replacePlaceholders env params.namingPattern RenamingMode.DirectoryScan 0 0
      originalFilename ⟨parts.1⟩ ⟨parts.2⟩ origNum (origNum.map (fun n => n + params.increment))
      (numberWidth : Int) "" "").map
    (fun nm =>
      applyCaseConversion
        (performFindReplace nm params.findText params.replaceText params.findCaseSensitive)
        params.caseConversionMode)

/-- The manual-selection name-generation pipeline for one file. -/
def genNameMan (params : InputParams) (env : Env) (totalFiles : Nat) (idx : Int)
    (filePath : String) : Except String String :=
  let originalFilename := filenameOf filePath
  let parts := splitStemExt originalFilename.data
  (replacePlaceholders env params.namingPattern RenamingMode.ManualSelection idx totalFiles
      originalFilename ⟨parts.1⟩ ⟨parts.2⟩ none none 0 "" "").map
    (fun nm =>
      applyCaseConversion
        (performFindReplace nm params.findText params.replaceText params.findCaseSensitive)
        params.caseConversionMode)

/-- One iteration of the directory-scan plan loop, in source order:
increment-overflow check, name generation (placeholders, find/replace,
case conversion), empty-name rejection, case-insensitive identity skip,
intra-batch target-conflict rejection, on-disk potential-overwrite skip,
and finally appending the operation to the plan. -/
def planStepDir (params : InputParams) (disk : Disk) (env : Env) (numberWidth : Nat)
    (foundPaths : List String) (st : PlanState) (item : String × Option Int) :
    Except String PlanState :=
  let currentPath := item.1
  let originalFilename := filenameOf currentPath
  if incOverflow params.increment item.2 then
    Except.ok { st with
      missing := st.missing ++ [originalFilename ++ " (Skipped: Incremented number out of int range)"],
      success := false }
  else
    match genNameDir params env numberWidth currentPath item.2 with
    | Except.error e => Except.error e
    | Except.ok finalNewFilename =>
      if finalNewFilename = "" then
        Except.ok { st with
          err := st.err ++ ["Error: Generated new filename is empty for " ++ originalFilename ++ ". Skipped."],
          missing := st.missing ++ [originalFilename ++ " (Skipped: Generated name was empty)"],
          success := false }
      else
        let newFullPath := joinPath (parentOf currentPath) finalNewFilename
        if iequals currentPath newFullPath then
          Except.ok { st with
            general := st.general ++ ["Skipping " ++ originalFilename ++ " (New name is identical to old name, case-insensitively)"] }
        else
          let newPathLower := toLowerStr newFullPath
          if newPathLower ∈ st.targetsLower then
            Except.ok { st with
              err := st.err ++ ["Error: Generated new path " ++ newFullPath ++ " conflicts with another generated path in this batch. Skipping " ++ originalFilename ++ "."],
              missing := st.missing ++ [originalFilename ++ " (Skipped: Target path conflict within batch)"],
              success := false }
          else
            let st := { st with targetsLower := st.targetsLower ++ [newPathLower] }
            if (diskLookup disk newFullPath).isSome && !(newFullPath ∈ foundPaths) then
              Except.ok { st with
                overwrites := st.overwrites ++ [⟨originalFilename, finalNewFilename, newFullPath⟩],
                missing := st.missing ++ [originalFilename ++ " (Skipped: Target path already exists and is not part of this rename batch)"] }
            else
              Except.ok { st with
                plan := st.plan ++ [⟨originalFilename, finalNewFilename, currentPath, newFullPath, item.2, 0⟩] }

/-- The directory-scan plan loop over the ordered found map. -/
def planLoopDir (params : InputParams) (disk : Disk) (env : Env) (numberWidth : Nat)
    (foundPaths : List String) : PlanState → List (String × Option Int) → Except String PlanState
  | st, [] => Except.ok st
  | st, x :: xs =>
    match planStepDir params disk env numberWidth foundPaths st x with
    | Except.error e => Except.error e
    | Except.ok st2 => planLoopDir params disk env numberWidth foundPaths st2 xs

/-- One iteration of the manual-selection plan loop: duplicate-input
skip, existence/regular-file re-check, name generation, and the same
empty/identity/conflict/overwrite checks, with the on-disk overwrite
test consulting the set of input paths inserted so far.  Returns the
updated state and unique-input set; the 1-based index advances on every
branch. -/
def planStepMan (params : InputParams) (disk : Disk) (env : Env) (totalFiles : Nat)
    (uniq : List String) (idx : Int) (st : PlanState) (filePath : String) :
    Except String (PlanState × List String) :=
  if filePath ∈ uniq then
    Except.ok ({ st with warn := st.warn ++ ["Warning: Skipping duplicate input file: " ++ filePath] }, uniq)
  else
    let uniq := uniq ++ [filePath]
    match diskLookup disk filePath with
    | some (Entry.file _) =>
      let originalFilename := filenameOf filePath
      match genNameMan params env totalFiles idx filePath with
      | Except.error e => Except.error e
      | Except.ok finalNewFilename =>
        if finalNewFilename = "" then
          Except.ok ({ st with
            err := st.err ++ ["Error: Generated new filename is empty for " ++ originalFilename ++ ". Skipped."],
            missing := st.missing ++ [originalFilename ++ " (Skipped: Generated name was empty)"],
            success := false }, uniq)
        else
          let newFullPath := joinPath (parentOf filePath) finalNewFilename
          if iequals filePath newFullPath then
            Except.ok ({ st with
              general := st.general ++ ["Skipping " ++ originalFilename ++ " (New name is identical to old name, case-insensitively)"] }, uniq)
          else
            let newPathLower := toLowerStr newFullPath
            if newPathLower ∈ st.targetsLower then
              Except.ok ({ st with
                err := st.err ++ ["Error: Generated new path " ++ newFullPath ++ " conflicts with another generated path in this batch. Skipping " ++ originalFilename ++ "."],
                missing := st.missing ++ [originalFilename ++ " (Skipped: Target path conflict within batch)"],
                success := false }, uniq)
            else
              let st := { st with targetsLower := st.targetsLower ++ [newPathLower] }
              if (diskLookup disk newFullPath).isSome && !(newFullPath ∈ uniq) then
                Except.ok ({ st with
                  overwrites := st.overwrites ++ [⟨originalFilename, finalNewFilename, newFullPath⟩],
                  missing := st.missing ++ [originalFilename ++ " (Skipped: Target path already exists and is not part of this rename batch)"] }, uniq)
              else
                Except.ok ({ st with
                  plan := st.plan ++ [⟨originalFilename, finalNewFilename, filePath, newFullPath, none, idx⟩] }, uniq)
    | _ =>
      Except.ok ({ st with
        missing := st.missing ++ [filePath ++ " (Skipped: Not a valid file or inaccessible)"] }, uniq)

/-- The manual-selection plan loop over the user-supplied file list. -/
def planLoopMan (params : InputParams) (disk : Disk) (env : Env) (totalFiles : Nat) :
    List String → Int → PlanState → List String → Except String PlanState
  | _, _, st, [] => Except.ok st
  | uniq, idx, st, f :: fs =>
    match planStepMan params disk env totalFiles uniq idx st f with
    | Except.error e => Except.error e
    | Except.ok (st2, uniq2) => planLoopMan params disk env totalFiles uniq2 (idx + 1) st2 fs

/-- The empty initial loop state, with the general-info entries
collected before the loop starts. -/
def initState (general : List String) : PlanState :=
  ⟨[], [], [], [], general, [], [], true⟩

/-- An `OutputResults` value for a fatal precondition failure: empty
plan, the single error message, `success = false`. -/
def fatalResults (msg : String) : OutputResults :=
  ⟨[], [], [], [], [], [msg], false⟩

/-- Assembles the final `OutputResults` from the loop state: `success`
becomes the running flag conjoined with emptiness of the error log, and
the summary line is appended to the general-info log. -/
def finishResults (params : InputParams) (st : PlanState) (dirScanFilesChecked : Bool) :
    OutputResults :=
  let issuesLogged :=
    !st.missing.isEmpty || !st.overwrites.isEmpty || !st.warn.isEmpty || !st.err.isEmpty
  let summary :=
    if st.plan.isEmpty then
      if params.mode = RenamingMode.DirectoryScan && !issuesLogged && !dirScanFilesChecked then
        "No files found in the target directory matching the specified pattern/filters."
      else if params.mode = RenamingMode.ManualSelection && params.manualFiles.isEmpty then
        "No files were added to the list to be renamed."
      else
        "No files eligible for renaming after applying all filters and checks."
    else
      "Calculated " ++ toString st.plan.length ++ " file(s) to be renamed."
  { renamePlan := st.plan
    missingSourceFilesLog := st.missing
    potentialOverwritesLog := st.overwrites
    generalInfoLog := st.general ++ [summary]
    warningLog := st.warn
    errorLog := st.err
    success := st.success && st.err.isEmpty }

/-- The parsed extension allow-set of a planning pass. -/
def dirScanExtSet (params : InputParams) : List String :=
  parseExtFilter params.filterExtensions

/-- Whether the extension filter is active (non-empty input that parsed
to a non-empty set). -/
def dirScanUseExt (params : InputParams) : Bool :=
  params.filterExtensions ≠ "" && !(parseExtFilter params.filterExtensions).isEmpty

/-- The general-info entries collected before the scan loop starts. -/
def dirScanInfo (params : InputParams) : List String :=
  (if dirScanUseExt params then ["Filtering by extensions: " ++ params.filterExtensions]
   else []) ++
  [if params.recursiveScan then "Starting recursive directory scan..."
   else "Starting non-recursive directory scan..."]

/-- The ordered found map of a directory-scan planning pass. -/
def dirScanFound (params : InputParams) (disk : Disk) : List (String × Option Int) :=
  buildFound params (dirScanExtSet params) (dirScanUseExt params) (scanEntries disk params)

/-- The full directory-scan plan loop of a planning pass. -/
def calcPlanDirLoop (params : InputParams) (disk : Disk) (env : Env) :
    Except String PlanState :=
  planLoopDir params disk env (computeNumberWidth params)
    ((dirScanFound params disk).map (fun x => x.1))
    (initState (dirScanInfo params)) (dirScanFound params disk)

/-- The full manual-selection plan loop of a planning pass. -/
def calcPlanManLoop (params : InputParams) (disk : Disk) (env : Env) :
    Except String PlanState :=
  planLoopMan params disk env params.manualFiles.length [] 1
    (initState []) params.manualFiles

/-- Models `RenamerLogic::calculateRenamePlan`.  The `Except.error` case
is the uncaught C++ exception escaping the function (the plan-generation
loops have no handler around `ReplacePlaceholders`). -/
def calculateRenamePlan (params : InputParams) (disk : Disk) (env : Env) :
    Except String OutputResults :=
  if params.namingPattern = "" then
    Except.ok (fatalResults "FATAL: New name pattern cannot be empty.")
  else
    match params.mode with
    | RenamingMode.DirectoryScan =>
      if !(diskLookup disk params.targetDirectory == some Entry.dir) then
        Except.ok (fatalResults ("FATAL: Target directory is invalid or inaccessible: " ++ params.targetDirectory))
      else if params.filenamePattern = "" then
        Except.ok (fatalResults "FATAL: Filename Pattern cannot be empty in Directory Scan mode.")
      else if params.lowestNumber > params.highestNumber ∧
          ¬(params.lowestNumber = 0 ∧ params.highestNumber = 0) then
        Except.ok (fatalResults "FATAL: Lowest Number filter cannot be greater than Highest Number filter.")
      else
        match calcPlanDirLoop params disk env with
        | Except.error e => Except.error e
        | Except.ok st =>
          Except.ok (finishResults params st (!(scanEntries disk params).isEmpty))
    | RenamingMode.ManualSelection =>
      if params.manualFiles.isEmpty then
        Except.ok (fatalResults "FATAL: No files were added to the list in Manual Selection mode.")
      else
        match calcPlanManLoop params disk env with
        | Except.error e => Except.error e
        | Except.ok st => Except.ok (finishResults params st false)

/-- The filesystem the execution, undo and backup-deletion engines act
on: a map from full paths to entries. -/
def FS : Type := String → Option Entry

/-- A successful `fs::rename(a, b)`: the entry moves from `a` to `b`. -/
def fsRename (fs : FS) (a b : String) : FS :=
  fun p => if p = b then fs a else if p = a then none else fs p

/-- Mirrors the C++ `RenameExecutionResult` struct. -/
structure RenameExecutionResult where
  successfulRenameOps : List RenameOperation
  failedRenames : List (String × String)
  overallSuccess : Bool

/-- Mirrors the C++ `UndoResult` struct. -/
structure UndoResult where
  successfulUndos : List (String × String)
  failedUndos : List (String × String)
  overallSuccess : Bool

/-- Mirrors the C++ `DeleteResult` struct. -/
structure DeleteResult where
  success : Bool
  errorMessage : String

/-- The index/path tie-break of the execution-order comparator: manual
`Index` ascending, then full source path ascending. -/
def tieBreakCmp (a b : RenameOperation) : Bool :=
  if a.Index ≠ b.Index then a.Index < b.Index else pathLt a.OldFullPath b.OldFullPath

/-- The comparator `performRename` passes to `std::sort`: when both
operations carry a parsed number and the numbers differ, descending on
the number for a positive increment and ascending otherwise; every other
pair falls through to the index/path tie-break. -/
def execCmp (increment : Int) (a b : RenameOperation) : Bool :=
  match a.Number, b.Number with
  | some x, some y => if x ≠ y then (if increment > 0 then y < x else x < y) else tieBreakCmp a b
  | _, _ => tieBreakCmp a b

/-- Sorted insertion with a strict-less comparator. -/
def insertOp (lt : RenameOperation → RenameOperation → Bool) (x : RenameOperation) :
    List RenameOperation → List RenameOperation
  | [] => [x]
  | y :: ys => if lt x y then x :: y :: ys else y :: insertOp lt x ys

/-- The sort of the working copy of the plan (a deterministic model of
the `std::sort` call with `execCmp`). -/
def sortOps (increment : Int) (plan : List RenameOperation) : List RenameOperation :=
  plan.foldr (insertOp (execCmp increment)) []

/-- The per-operation loop of `performRename`: verify the source still
exists and is a regular file, verify the target is free (identity
operations are skipped with only a warning), perform the rename, then
verify the source vanished and the target appeared before recording
success.  Returns (successful ops, failure entries, final filesystem). -/
def execLoop (fs : FS) : List RenameOperation →
    List RenameOperation × List (String × String) × FS
  | [] => ([], [], fs)
  | op :: rest =>
    match fs op.OldFullPath with
    | none =>
      let r := execLoop fs rest
      (r.1, (op.OldName, "Skipped: Source file disappeared.") :: r.2.1, r.2.2)
    | some Entry.dir =>
      let r := execLoop fs rest
      (r.1, (op.OldName, "Skipped: Source is not a regular file.") :: r.2.1, r.2.2)
    | some (Entry.file _) =>
      if op.OldFullPath ≠ op.NewFullPath then
        if (fs op.NewFullPath).isSome then
          let r := execLoop fs rest
          (r.1, (op.OldName, "Skipped: Target path already exists.") :: r.2.1, r.2.2)
        else
          let fs2 := fsRename fs op.OldFullPath op.NewFullPath
          if fs2 op.OldFullPath = none ∧ (fs2 op.NewFullPath).isSome then
            let r := execLoop fs2 rest
            (op :: r.1, r.2.1, r.2.2)
          else
            let r := execLoop fs2 rest
            (r.1, (op.OldName, "Verification failed after rename reported success.") :: r.2.1, r.2.2)
      else
        -- identity operation: wxLogWarning and skip, no record either way
        execLoop fs rest

/-- Models `RenamerLogic::performRename`: an empty plan is trivially
successful; otherwise a working copy of the plan is sorted with
`execCmp` and executed; `overallSuccess` is non-emptiness of the plan
conjoined with absence of failures. -/
def performRenameFS (fs : FS) (plan : List RenameOperation) (increment : Int) :
    RenameExecutionResult × FS :=
  if plan.isEmpty then (⟨[], [], true⟩, fs)
  else
    let r := execLoop fs (sortOps increment plan)
    (⟨r.1, r.2.1, !plan.isEmpty && r.2.1.isEmpty⟩, r.2.2)

/-- The per-operation loop of `performUndo`: roles invert (the current
path is `NewFullPath`, the restore target `OldFullPath`), with the same
verification discipline as execution. -/
def undoLoop (fs : FS) : List RenameOperation →
    List (String × String) × List (String × String) × FS
  | [] => ([], [], fs)
  | op :: rest =>
    match fs op.NewFullPath with
    | none =>
      let r := undoLoop fs rest
      (r.1, (op.NewName, "Skipped Undo: Current file not found.") :: r.2.1, r.2.2)
    | some Entry.dir =>
      let r := undoLoop fs rest
      (r.1, (op.NewName, "Skipped Undo: Current path is not a regular file.") :: r.2.1, r.2.2)
    | some (Entry.file _) =>
      if op.OldFullPath ≠ op.NewFullPath then
        if (fs op.OldFullPath).isSome then
          let r := undoLoop fs rest
          (r.1, (op.NewName, "Skipped Undo: Original path is already occupied.") :: r.2.1, r.2.2)
        else
          let fs2 := fsRename fs op.NewFullPath op.OldFullPath
          if fs2 op.NewFullPath = none ∧ (fs2 op.OldFullPath).isSome then
            let r := undoLoop fs2 rest
            ((op.NewName, op.OldName) :: r.1, r.2.1, r.2.2)
          else
            let r := undoLoop fs2 rest
            (r.1, (op.NewName, "Verification failed after undo rename reported success.") :: r.2.1, r.2.2)
      else
        undoLoop fs rest

/-- Models `RenamerLogic::performUndo`: an empty list is trivially
successful; otherwise the operations are processed in reverse of their
execution order. -/
def performUndoFS (opsToUndo : List RenameOperation) (fs : FS) : UndoResult × FS :=
  if opsToUndo.isEmpty then (⟨[], [], true⟩, fs)
  else
    let r := undoLoop fs opsToUndo.reverse
    (⟨r.1, r.2.1, !opsToUndo.isEmpty && r.2.1.isEmpty⟩, r.2.2)

/-- A recursive `fs::remove_all(p)`: removes `p` and everything strictly
below it. -/
def removeAllFS (fs : FS) (p : String) : FS :=
  fun q => if q = p ∨ isUnderDir p q then none else fs q

/-- Models `RenamerLogic::deleteBackup`: path validation (empty path, no
filename component, `.` or `..` filename are rejected), non-existence
treated as success (idempotent delete), the directory requirement, the
recursive removal, and the post-removal absence verification. -/
def deleteBackupFS (fs : FS) (backupPath : String) : DeleteResult × FS :=
  if backupPath = "" ∨ filenameOf backupPath = "" ∨ filenameOf backupPath = "." ∨
      filenameOf backupPath = ".." then
    (⟨false, "Invalid backup path provided for deletion: " ++ backupPath⟩, fs)
  else
    match fs backupPath with
    | none => (⟨true, "Backup path not found (already deleted?): " ++ backupPath⟩, fs)
    | some (Entry.file _) => (⟨false, "Path to delete is not a directory: " ++ backupPath⟩, fs)
    | some Entry.dir =>
      let fs2 := removeAllFS fs backupPath
      if fs2 backupPath = none then (⟨true, ""⟩, fs2)
      else (⟨false, "Verification failed: Directory still exists after reported successful deletion."⟩, fs2)

/-- Decidable equality for `Except`, so concrete runs can be settled by
`decide`. -/
instance {ε α : Type} [DecidableEq ε] [DecidableEq α] : DecidableEq (Except ε α)
  | Except.ok a, Except.ok b =>
    if h : a = b then Decidable.isTrue (by rw [h])
    else Decidable.isFalse (fun hc => h (Except.ok.inj hc))
  | Except.error a, Except.error b =>
    if h : a = b then Decidable.isTrue (by rw [h])
    else Decidable.isFalse (fun hc => h (Except.error.inj hc))
  | Except.ok _, Except.error _ => Decidable.isFalse (fun hc => Except.noConfusion hc)
  | Except.error _, Except.ok _ => Decidable.isFalse (fun hc => Except.noConfusion hc)

/-- A concrete environment value for the closed scenario runs (the
impure inputs are fixed arbitrarily; the scenarios use no token that
consults them). -/
def envC : Env :=
  ⟨"2024", "05", "17", "10", "30", "59", fun k => k, fun _ => false,
   fun _ => "0", fun _ => "0", fun _ => "00000000"⟩

/-- Scenario input for C5: a valid scan over one matching file with a
naming pattern whose `<random:N>` digit count exceeds `INT_MAX`. -/
def c5Params : InputParams :=
  ⟨RenamingMode.DirectoryScan, "d", "<random:9999999999>", "", "", true,
   CaseConversionMode.NoChange, 0, "*", "", 0, 0, false, []⟩

/-- Scenario disk for C5. -/
def c5Disk : Disk := [("d", Entry.dir), ("d/a.txt", Entry.file 1)]

/-- Scenario input for C4: two scanned files whose generated targets
collide case-insensitively (`same.TXT` vs `same.txt`). -/
def c4Params : InputParams :=
  ⟨RenamingMode.DirectoryScan, "d", "same<ext>", "", "", true,
   CaseConversionMode.NoChange, 0, "*", "", 0, 0, false, []⟩

/-- Scenario disk for C4. -/
def c4Disk : Disk := [("d", Entry.dir), ("d/a.TXT", Entry.file 1), ("d/b.txt", Entry.file 2)]

/-- Scenario input for the C3 witness: a valid scan that matches no
file, so the plan is empty with no issues. -/
def c3Params : InputParams :=
  ⟨RenamingMode.DirectoryScan, "d", "name_<orig_name><ext>", "", "", true,
   CaseConversionMode.NoChange, 0, "*.txt", "", 0, 0, false, []⟩

/-- Scenario disk for the C3 witness. -/
def c3Disk : Disk := [("d", Entry.dir), ("d/photo.png", Entry.file 1)]

/-- The planner output of the C3 witness scenario (total extractor). -/
def c3Out : OutputResults :=
  match calculateRenamePlan c3Params c3Disk envC with
  | Except.ok o => o
  | Except.error _ => fatalResults ""

/-- Modelled from the spec's words (for the C6 refinement comparison):
an `<index>` zero-padding width of `ceil(log10(totalFiles))` with a
minimum width of 1.  `clog10fuel` is the structural ceiling-log-10. -/
def clog10fuel : Nat → Nat → Nat
  | 0, _ => 0
  | fuel + 1, n => if n ≤ 1 then 0 else clog10fuel fuel ((n + 9) / 10) + 1

/-- Modelled from the spec's words: the claimed manual index width. -/
def specManualIndexWidth (totalFiles : Nat) : Nat :=
  max 1 (clog10fuel totalFiles totalFiles)

/-- Scenario input for the C10 witness: a scan planning two files. -/
def c10Params : InputParams :=
  ⟨RenamingMode.DirectoryScan, "d", "x_<orig_name><ext>", "", "", true,
   CaseConversionMode.NoChange, 0, "*", "", 0, 0, false, []⟩

/-- Scenario disk for the C10 witness (files listed out of order). -/
def c10Disk : Disk := [("d", Entry.dir), ("d/b.txt", Entry.file 2), ("d/a.txt", Entry.file 1)]

/-- The planner output of the C10 witness scenario (total extractor). -/
def c10Out : OutputResults :=
  match calculateRenamePlan c10Params c10Disk envC with
  | Except.ok o => o
  | Except.error _ => fatalResults ""

/-- A concrete plan-loop state for the C4 witness: one target path
(lower-cased) already claimed by an earlier item of the batch. -/
def c4StateW : PlanState := ⟨[], ["d/same.txt"], [], [], [], [], [], true⟩

/-- The three concrete operations of the C2 counterexample: two
numbered operations and a number-less one between them in path order. -/
def c2OpA : RenameOperation := ⟨"", "", "a", "", some 1, 0⟩

/-- Second C2 counterexample operation (no parsed number). -/
def c2OpB : RenameOperation := ⟨"", "", "b", "", none, 0⟩

/-- Third C2 counterexample operation. -/
def c2OpC : RenameOperation := ⟨"", "", "c", "", some 2, 0⟩

/- ===================== Theorems ===================== -/

theorem strLtb_irrefl (l : List Char) : strLtb l l = false := by
  induction l with
  | nil => rfl
  | cons a as ih => simp [strLtb, ih]

theorem strLtb_asymm {a b : List Char} (h : strLtb a b = true) : strLtb b a = false := by
  induction a generalizing b with
  | nil => cases b with
    | nil => simp [strLtb] at h
    | cons y ys => simp [strLtb]
  | cons x xs ih =>
    cases b with
    | nil => simp [strLtb] at h
    | cons y ys =>
      simp only [strLtb] at h ⊢
      rcases lt_trichotomy x y with hlt | heq | hgt
      · simp [hlt, not_lt_of_lt hlt, ne_of_gt hlt]
      · subst heq
        simp only [lt_irrefl, if_false] at h ⊢
        exact ih h
      · simp [hgt, not_lt_of_lt hgt] at h

theorem strLtb_trans {a b c : List Char} (h1 : strLtb a b = true) (h2 : strLtb b c = true) :
    strLtb a c = true := by
  induction a generalizing b c with
  | nil =>
    cases c with
    | nil =>
      cases b with
      | nil => simpa using h1
      | cons y ys => simp [strLtb] at h2
    | cons z zs => simp [strLtb]
  | cons x xs ih =>
    cases b with
    | nil => simp [strLtb] at h1
    | cons y ys =>
      cases c with
      | nil => simp [strLtb] at h2
      | cons z zs =>
        simp only [strLtb] at h1 h2 ⊢
        rcases lt_trichotomy x y with hxy | hxy | hxy
        · rcases lt_trichotomy y z with hyz | hyz | hyz
          · simp [lt_trans hxy hyz]
          · subst hyz; simp [hxy]
          · simp [hyz, not_lt_of_lt hyz] at h2
        · subst hxy
          rcases lt_trichotomy x z with hyz | hyz | hyz
          · simp [hyz]
          · subst hyz
            simp only [lt_irrefl, if_false] at h1 h2 ⊢
            exact ih h1 h2
          · simp [hyz, not_lt_of_lt hyz] at h2
        · simp [hxy, not_lt_of_lt hxy] at h1

theorem strLtb_eq_of_incomp {a b : List Char} (h1 : strLtb a b = false)
    (h2 : strLtb b a = false) : a = b := by
  induction a generalizing b with
  | nil => cases b with
    | nil => rfl
    | cons y ys => simp [strLtb] at h1
  | cons x xs ih =>
    cases b with
    | nil => simp [strLtb] at h2
    | cons y ys =>
      simp only [strLtb] at h1 h2
      rcases lt_trichotomy x y with hlt | heq | hgt
      · simp [hlt] at h1
      · subst heq
        simp only [lt_irrefl, if_false] at h1 h2
        rw [ih h1 h2]
      · simp [hgt] at h2

theorem pathLt_irrefl (s : String) : pathLt s s = false := strLtb_irrefl s.data

theorem pathLt_asymm {a b : String} (h : pathLt a b = true) : pathLt b a = false :=
  strLtb_asymm h

theorem pathLt_trans {a b c : String} (h1 : pathLt a b = true) (h2 : pathLt b c = true) :
    pathLt a c = true := strLtb_trans h1 h2

theorem pathLt_eq_of_incomp {a b : String} (h1 : pathLt a b = false)
    (h2 : pathLt b a = false) : a = b := by
  cases a; cases b
  exact congrArg String.mk (strLtb_eq_of_incomp h1 h2)

theorem fsRename_restore (fs : FS) (a b : String) (hne : a ≠ b) (hb : fs b = none) :
    fsRename (fsRename fs a b) b a = fs := by
  funext p
  by_cases hpa : p = a
  · subst hpa; simp [fsRename, hne]
  · by_cases hpb : p = b
    · subst hpb; simp [fsRename, hpa, hb]
    · simp [fsRename, hpa, hpb]

theorem undoLoop_append (l1 l2 : List RenameOperation) : ∀ fs : FS,
    undoLoop fs (l1 ++ l2) =
      ((undoLoop fs l1).1 ++ (undoLoop (undoLoop fs l1).2.2 l2).1,
       (undoLoop fs l1).2.1 ++ (undoLoop (undoLoop fs l1).2.2 l2).2.1,
       (undoLoop (undoLoop fs l1).2.2 l2).2.2) := by
  induction l1 with
  | nil => intro fs; simp [undoLoop]
  | cons op rest ih =>
    intro fs
    cases hfs : fs op.NewFullPath with
    | none => simp [undoLoop, hfs, ih fs]
    | some e =>
      cases e with
      | dir => simp [undoLoop, hfs, ih fs]
      | file c =>
        by_cases hne : op.OldFullPath ≠ op.NewFullPath
        · cases hocc : (fs op.OldFullPath).isSome with
          | true => simp [undoLoop, hfs, hne, hocc, ih fs]
          | false =>
            by_cases hver : (fsRename fs op.NewFullPath op.OldFullPath) op.NewFullPath = none ∧
                ((fsRename fs op.NewFullPath op.OldFullPath) op.OldFullPath).isSome
            · simp [undoLoop, hfs, hne, hocc, hver, ih (fsRename fs op.NewFullPath op.OldFullPath)]
            · simp [undoLoop, hfs, hne, hocc, hver, ih (fsRename fs op.NewFullPath op.OldFullPath)]
        · simp [undoLoop, hfs, hne, ih fs]

theorem exec_undo_restores (ops : List RenameOperation) : ∀ fs : FS,
    (undoLoop (execLoop fs ops).2.2 (execLoop fs ops).1.reverse).2.2 = fs ∧
    (undoLoop (execLoop fs ops).2.2 (execLoop fs ops).1.reverse).2.1 = [] := by
  induction ops with
  | nil => intro fs; simp [execLoop, undoLoop]
  | cons op rest ih =>
    intro fs
    cases hfs : fs op.OldFullPath with
    | none => simpa [execLoop, hfs] using ih fs
    | some e =>
      cases e with
      | dir => simpa [execLoop, hfs] using ih fs
      | file c =>
        by_cases hne : op.OldFullPath ≠ op.NewFullPath
        · cases htgt : (fs op.NewFullPath).isSome with
          | true => simpa [execLoop, hfs, hne, htgt] using ih fs
          | false =>
            have hb : fs op.NewFullPath = none := by
              cases hx : fs op.NewFullPath with
              | none => rfl
              | some v => rw [hx] at htgt; simp at htgt
            have hver : (fsRename fs op.OldFullPath op.NewFullPath) op.OldFullPath = none ∧
                ((fsRename fs op.OldFullPath op.NewFullPath) op.NewFullPath).isSome := by
              constructor
              · simp [fsRename, hne]
              · simp [fsRename, hfs]
            have hexec : execLoop fs (op :: rest) =
                ((op :: (execLoop (fsRename fs op.OldFullPath op.NewFullPath) rest).1),
                 (execLoop (fsRename fs op.OldFullPath op.NewFullPath) rest).2.1,
                 (execLoop (fsRename fs op.OldFullPath op.NewFullPath) rest).2.2) := by
              simp [execLoop, hfs, hne, htgt, hver]
            rw [hexec]
            simp only [List.reverse_cons]
            rw [undoLoop_append]
            obtain ⟨h1, h2⟩ := ih (fsRename fs op.OldFullPath op.NewFullPath)
            rw [h1, h2]
            have ha : (fsRename fs op.OldFullPath op.NewFullPath) op.NewFullPath =
                some (Entry.file c) := by simp [fsRename, hfs]
            have hrestore : fsRename (fsRename fs op.OldFullPath op.NewFullPath)
                op.NewFullPath op.OldFullPath = fs := fsRename_restore fs _ _ hne hb
            have hne2 : op.OldFullPath ≠ op.NewFullPath := hne
            constructor
            · simp [undoLoop, ha, hne2, hver.1, hrestore, hb, hfs]
            · simp [undoLoop, ha, hne2, hver.1, hrestore, hb, hfs]
        · simpa [execLoop, hfs, if_neg hne] using ih fs

theorem performUndoFS_eqs (S : List RenameOperation) (F : FS) :
    (performUndoFS S F).2 = (undoLoop F S.reverse).2.2 ∧
    (performUndoFS S F).1.failedUndos = (undoLoop F S.reverse).2.1 := by
  cases S with
  | nil => simp [performUndoFS, undoLoop]
  | cons a l => simp [performUndoFS]

theorem performRenameFS_eqs (fs : FS) (plan : List RenameOperation) (inc : Int) :
    (performRenameFS fs plan inc).1.successfulRenameOps = (execLoop fs (sortOps inc plan)).1 ∧
    (performRenameFS fs plan inc).2 = (execLoop fs (sortOps inc plan)).2.2 := by
  cases plan with
  | nil => simp [performRenameFS, sortOps, execLoop]
  | cons a l => simp [performRenameFS]

/-- C1: for every filesystem, plan and increment, undoing the
`successfulRenameOps` that `performRename` produced restores the
filesystem exactly to its pre-execution state (every path maps to the
entry, hence content, it had before); no undo fails; and in particular
every successfully renamed operation sees its `OldFullPath` and
`NewFullPath` restored to their original states, with its content back
at `OldFullPath`. -/
theorem claim_c1_rename_undo_roundtrip (fs : FS) (plan : List RenameOperation) (increment : Int) :
    (performUndoFS (performRenameFS fs plan increment).1.successfulRenameOps
      (performRenameFS fs plan increment).2).2 = fs ∧
    (performUndoFS (performRenameFS fs plan increment).1.successfulRenameOps
      (performRenameFS fs plan increment).2).1.failedUndos = [] ∧
    ∀ op ∈ (performRenameFS fs plan increment).1.successfulRenameOps,
      (performUndoFS (performRenameFS fs plan increment).1.successfulRenameOps
        (performRenameFS fs plan increment).2).2 op.OldFullPath = fs op.OldFullPath ∧
      (performUndoFS (performRenameFS fs plan increment).1.successfulRenameOps
        (performRenameFS fs plan increment).2).2 op.NewFullPath = fs op.NewFullPath := by
  obtain ⟨hS, hF⟩ := performRenameFS_eqs fs plan increment
  obtain ⟨hU2, hU1⟩ := performUndoFS_eqs
    (performRenameFS fs plan increment).1.successfulRenameOps
    (performRenameFS fs plan increment).2
  obtain ⟨hr1, hr2⟩ := exec_undo_restores (sortOps increment plan) fs
  have hfs : (performUndoFS (performRenameFS fs plan increment).1.successfulRenameOps
      (performRenameFS fs plan increment).2).2 = fs := by
    rw [hU2, hS, hF]; exact hr1
  refine ⟨hfs, ?_, ?_⟩
  · rw [hU1, hS, hF]; exact hr2
  · intro op _
    rw [hfs]
    exact ⟨rfl, rfl⟩

theorem tieBreakCmp_irrefl (a : RenameOperation) : tieBreakCmp a a = false := by
  simp [tieBreakCmp, pathLt_irrefl]

theorem tieBreakCmp_asymm {a b : RenameOperation} (h : tieBreakCmp a b = true) :
    tieBreakCmp b a = false := by
  simp only [tieBreakCmp] at h ⊢
  by_cases hi : a.Index = b.Index
  · rw [if_neg (by omega)] at h
    rw [if_neg (by omega)]
    exact pathLt_asymm h
  · rw [if_pos hi] at h
    rw [if_pos (by omega)]
    simp only [decide_eq_true_eq] at h
    simp only [decide_eq_false_iff_not]
    omega

theorem tieBreakCmp_trans {a b c : RenameOperation} (h1 : tieBreakCmp a b = true)
    (h2 : tieBreakCmp b c = true) : tieBreakCmp a c = true := by
  simp only [tieBreakCmp] at h1 h2 ⊢
  by_cases hab : a.Index = b.Index
  · by_cases hbc : b.Index = c.Index
    · rw [if_neg (by omega)] at h1 h2 ⊢
      exact pathLt_trans h1 h2
    · rw [if_pos (by omega)] at h2
      rw [if_pos (by omega)]
      simp only [decide_eq_true_eq] at h2 ⊢
      omega
  · rw [if_pos hab] at h1
    simp only [decide_eq_true_eq] at h1
    by_cases hbc : b.Index = c.Index
    · rw [if_pos (by omega)]
      simp only [decide_eq_true_eq]
      omega
    · rw [if_pos (by omega)] at h2
      simp only [decide_eq_true_eq] at h2
      rw [if_pos (by omega)]
      simp only [decide_eq_true_eq]
      omega

theorem tieBreakCmp_incomp {a b : RenameOperation} (h1 : tieBreakCmp a b = false)
    (h2 : tieBreakCmp b a = false) : a.Index = b.Index ∧ a.OldFullPath = b.OldFullPath := by
  simp only [tieBreakCmp] at h1 h2
  by_cases hi : a.Index = b.Index
  · rw [if_neg (by omega)] at h1
    rw [if_neg (by omega)] at h2
    exact ⟨hi, pathLt_eq_of_incomp h1 h2⟩
  · rw [if_pos hi] at h1
    rw [if_pos (by omega)] at h2
    simp only [decide_eq_false_iff_not] at h1 h2
    omega

theorem execCmp_incomp_num {inc : Int} {a b : RenameOperation} {x y : Int}
    (ha : a.Number = some x) (hb : b.Number = some y)
    (h1 : execCmp inc a b = false) (h2 : execCmp inc b a = false) :
    x = y ∧ a.Index = b.Index ∧ a.OldFullPath = b.OldFullPath := by
  simp only [execCmp, ha, hb] at h1 h2
  by_cases hxy : x = y
  · subst hxy
    rw [if_neg (by omega)] at h1 h2
    exact ⟨rfl, tieBreakCmp_incomp h1 h2⟩
  · rw [if_pos hxy] at h1
    rw [if_pos (by omega)] at h2
    by_cases hinc : inc > 0
    · rw [if_pos hinc] at h1 h2
      simp only [decide_eq_false_iff_not] at h1 h2
      omega
    · rw [if_neg hinc] at h1 h2
      simp only [decide_eq_false_iff_not] at h1 h2
      omega

theorem execCmp_trans_num {inc : Int} {a b c : RenameOperation} {x y z : Int}
    (ha : a.Number = some x) (hb : b.Number = some y) (hc : c.Number = some z)
    (h1 : execCmp inc a b = true) (h2 : execCmp inc b c = true) :
    execCmp inc a c = true := by
  simp only [execCmp, ha, hb, hc] at h1 h2 ⊢
  by_cases hxy : x = y
  · subst hxy
    rw [if_neg (by omega)] at h1
    by_cases hyz : x = z
    · subst hyz
      rw [if_neg (by omega)] at h2 ⊢
      exact tieBreakCmp_trans h1 h2
    · rw [if_pos hyz] at h2 ⊢
      exact h2
  · rw [if_pos hxy] at h1
    by_cases hyz : y = z
    · subst hyz
      rw [if_neg (by omega)] at h2
      rw [if_pos hxy]
      exact h1
    · rw [if_pos hyz] at h2
      by_cases hinc : inc > 0
      · rw [if_pos hinc] at h1 h2
        simp only [decide_eq_true_eq] at h1 h2
        rw [if_pos (by omega), if_pos hinc]
        simp only [decide_eq_true_eq]
        omega
      · rw [if_neg hinc] at h1 h2
        simp only [decide_eq_true_eq] at h1 h2
        rw [if_pos (by omega), if_neg hinc]
        simp only [decide_eq_true_eq]
        omega

theorem execCmp_eq_tieBreak {inc : Int} {a b : RenameOperation}
    (h : a.Number = none ∨ b.Number = none ∨ a.Number = b.Number) :
    execCmp inc a b = tieBreakCmp a b := by
  rcases h with h | h | h
  · simp [execCmp, h]
  · cases ha : a.Number <;> simp [execCmp, ha, h]
  · cases ha : a.Number with
    | none => simp [execCmp, ha]
    | some x =>
      rw [ha] at h
      simp [execCmp, ha, ← h]

theorem execCmp_irrefl (inc : Int) (a : RenameOperation) : execCmp inc a a = false := by
  cases ha : a.Number with
  | none => rw [execCmp_eq_tieBreak (Or.inl ha)]; exact tieBreakCmp_irrefl a
  | some x => rw [execCmp_eq_tieBreak (Or.inr (Or.inr rfl))]; exact tieBreakCmp_irrefl a

theorem execCmp_asymm {inc : Int} {a b : RenameOperation} (h : execCmp inc a b = true) :
    execCmp inc b a = false := by
  cases ha : a.Number with
  | none =>
    rw [execCmp_eq_tieBreak (Or.inl ha)] at h
    rw [execCmp_eq_tieBreak (Or.inr (Or.inl ha))]
    exact tieBreakCmp_asymm h
  | some x =>
    cases hb : b.Number with
    | none =>
      rw [execCmp_eq_tieBreak (Or.inr (Or.inl hb))] at h
      rw [execCmp_eq_tieBreak (Or.inl hb)]
      exact tieBreakCmp_asymm h
    | some y =>
      simp only [execCmp, ha, hb] at h ⊢
      by_cases hxy : x = y
      · subst hxy
        rw [if_neg (by omega)] at h ⊢
        exact tieBreakCmp_asymm h
      · rw [if_pos hxy] at h
        rw [if_pos (by omega)]
        by_cases hinc : inc > 0
        · rw [if_pos hinc] at h ⊢
          simp only [decide_eq_true_eq] at h
          simp only [decide_eq_false_iff_not]
          omega
        · rw [if_neg hinc] at h ⊢
          simp only [decide_eq_true_eq] at h
          simp only [decide_eq_false_iff_not]
          omega

/-- C2 counterexample: the comparator `performRename` hands to
`std::sort` is not transitive, hence not a strict weak order, as soon as
numbered and number-less operations mix: with increment 1, `c2OpA`
(number 1, path `a`) sorts before `c2OpB` (no number, path `b`), which
sorts before `c2OpC` (number 2, path `c`), yet `c2OpA` does not sort
before `c2OpC` (numbers compare descending). -/
theorem claim_c2_counterexample :
    execCmp 1 c2OpA c2OpB = true ∧ execCmp 1 c2OpB c2OpC = true ∧
    execCmp 1 c2OpA c2OpC = false ∧
    ¬ (∀ a b c : RenameOperation,
        execCmp 1 a b = true → execCmp 1 b c = true → execCmp 1 a c = true) := by
  refine ⟨by decide, by decide, by decide, fun h => ?_⟩
  have hac := h c2OpA c2OpB c2OpC (by decide) (by decide)
  exact absurd hac (by decide)

/-- C2 (amended): `performRename` executes the working copy of the plan
sorted by `execCmp`; the comparator orders by parsed number (descending
for a positive increment, ascending otherwise) when both operations
carry numbers that differ and otherwise by the `Index`-then-path
tie-break; it is irreflexive and asymmetric everywhere, and it is a
strict weak order (transitive with transitive incomparability) on
operations that all carry numbers or that all lack them — but not on
mixed sets, as the counterexample shows. -/
theorem claim_c2_amended :
    (∀ (fs : FS) (plan : List RenameOperation) (inc : Int), plan ≠ [] →
      (performRenameFS fs plan inc).1.successfulRenameOps = (execLoop fs (sortOps inc plan)).1 ∧
      (performRenameFS fs plan inc).1.failedRenames = (execLoop fs (sortOps inc plan)).2.1) ∧
    (∀ (inc : Int) (a b : RenameOperation) (x y : Int),
      a.Number = some x → b.Number = some y → x ≠ y →
      execCmp inc a b = (if 0 < inc then decide (y < x) else decide (x < y))) ∧
    (∀ (inc : Int) (a b : RenameOperation),
      a.Number = none ∨ b.Number = none ∨ a.Number = b.Number →
      execCmp inc a b = tieBreakCmp a b) ∧
    (∀ (inc : Int) (a : RenameOperation), execCmp inc a a = false) ∧
    (∀ (inc : Int) (a b : RenameOperation),
      execCmp inc a b = true → execCmp inc b a = false) ∧
    (∀ (inc : Int) (a b c : RenameOperation),
      a.Number.isSome → b.Number.isSome → c.Number.isSome →
      execCmp inc a b = true → execCmp inc b c = true → execCmp inc a c = true) ∧
    (∀ (inc : Int) (a b c : RenameOperation),
      a.Number = none → b.Number = none → c.Number = none →
      execCmp inc a b = true → execCmp inc b c = true → execCmp inc a c = true) ∧
    (∀ (inc : Int) (a b c : RenameOperation),
      a.Number.isSome → b.Number.isSome → c.Number.isSome →
      execCmp inc a b = false → execCmp inc b a = false →
      execCmp inc b c = false → execCmp inc c b = false →
      execCmp inc a c = false ∧ execCmp inc c a = false) := by
  refine ⟨?_, ?_, ?_, execCmp_irrefl, fun _ _ _ => execCmp_asymm, ?_, ?_, ?_⟩
  · intro fs plan inc hne
    cases plan with
    | nil => exact absurd rfl hne
    | cons a l => exact ⟨rfl, rfl⟩
  · intro inc a b x y ha hb hxy
    simp [execCmp, ha, hb, hxy]
  · intro inc a b h
    exact execCmp_eq_tieBreak h
  · intro inc a b c ha hb hc h1 h2
    obtain ⟨x, hx⟩ := Option.isSome_iff_exists.mp ha
    obtain ⟨y, hy⟩ := Option.isSome_iff_exists.mp hb
    obtain ⟨z, hz⟩ := Option.isSome_iff_exists.mp hc
    exact execCmp_trans_num hx hy hz h1 h2
  · intro inc a b c ha hb hc h1 h2
    rw [execCmp_eq_tieBreak (Or.inl ha)] at h1
    rw [execCmp_eq_tieBreak (Or.inl hb)] at h2
    rw [execCmp_eq_tieBreak (Or.inl ha)]
    exact tieBreakCmp_trans h1 h2
  · intro inc a b c ha hb hc h1 h2 h3 h4
    obtain ⟨x, hx⟩ := Option.isSome_iff_exists.mp ha
    obtain ⟨y, hy⟩ := Option.isSome_iff_exists.mp hb
    obtain ⟨z, hz⟩ := Option.isSome_iff_exists.mp hc
    obtain ⟨hxy, hiab, hpab⟩ := execCmp_incomp_num hx hy h1 h2
    obtain ⟨hyz, hibc, hpbc⟩ := execCmp_incomp_num hy hz h3 h4
    subst hxy
    constructor
    · simp only [execCmp, hx, hz, ← hyz, if_neg (by omega : ¬ x ≠ x)]
      simp only [tieBreakCmp, hiab, hibc, hpab, hpbc]
      rw [if_neg (by omega), pathLt_irrefl]
    · simp only [execCmp, hx, hz, ← hyz, if_neg (by omega : ¬ x ≠ x)]
      simp only [tieBreakCmp, hiab, hibc, hpab, hpbc]
      rw [if_neg (by omega), pathLt_irrefl]

/-- Witness for the amended C2 theorem at a concrete input: applying
the number-comparison clause to the two numbered counterexample
operations with increment 1 yields descending order. -/
theorem claim_c2_amended_witness : execCmp 1 c2OpA c2OpC = false := by
  rw [claim_c2_amended.2.1 1 c2OpA c2OpC 1 2 rfl rfl (by decide)]
  decide

/-- C5: the `<random:N>` placeholder with a digit count above `INT_MAX`
makes `std::stoi` raise `std::out_of_range` inside `ReplacePlaceholders`;
no handler exists on the path through `calculateRenamePlan`, so the
exception escapes the public entry point (modelled as the `Except.error`
outcome) on this concrete valid scan input. -/
theorem claim_c5_random_overflow_escapes :
    calculateRenamePlan c5Params c5Disk envC =
      Except.error "stoi out_of_range in random placeholder" := rfl

/-- C8: `deleteBackup` rejects the empty path and `.`/`..` paths with
`success = false`; on a validly named path that does not exist it
succeeds without touching the filesystem, so a second call succeeds as
well (idempotent delete); and an existing path that is a regular file
rather than a directory is rejected. -/
theorem claim_c8_delete_backup (fs : FS) (p : String) :
    ((deleteBackupFS fs "").1.success = false ∧ (deleteBackupFS fs ".").1.success = false ∧
      (deleteBackupFS fs "..").1.success = false) ∧
    (filenameOf p ≠ "" → filenameOf p ≠ "." → filenameOf p ≠ ".." → fs p = none →
      (deleteBackupFS fs p).1.success = true ∧ (deleteBackupFS fs p).2 = fs ∧
      (deleteBackupFS (deleteBackupFS fs p).2 p).1.success = true) ∧
    (∀ c : Nat, fs p = some (Entry.file c) → (deleteBackupFS fs p).1.success = false) := by
  have hrej : ∀ q : String,
      (q = "" ∨ filenameOf q = "" ∨ filenameOf q = "." ∨ filenameOf q = "..") →
      (deleteBackupFS fs q).1.success = false := by
    intro q hq
    unfold deleteBackupFS
    rw [if_pos hq]
  refine ⟨⟨hrej "" (Or.inl rfl), hrej "." (by decide), hrej ".." (by decide)⟩, ?_, ?_⟩
  · intro h1 h2 h3 hnone
    have hcond : ¬ (p = "" ∨ filenameOf p = "" ∨ filenameOf p = "." ∨ filenameOf p = "..") := by
      rintro (rfl | h | h | h)
      · exact h1 rfl
      · exact h1 h
      · exact h2 h
      · exact h3 h
    have hstep : deleteBackupFS fs p =
        (⟨true, "Backup path not found (already deleted?): " ++ p⟩, fs) := by
      unfold deleteBackupFS
      rw [if_neg hcond, hnone]
    refine ⟨by rw [hstep], by rw [hstep], ?_⟩
    rw [hstep]
    show (deleteBackupFS fs p).1.success = true
    rw [hstep]
  · intro c hfile
    by_cases hc : p = "" ∨ filenameOf p = "" ∨ filenameOf p = "." ∨ filenameOf p = ".."
    · exact hrej p hc
    · unfold deleteBackupFS
      rw [if_neg hc, hfile]

/-- Witness for C8 at a concrete input: deleting the absent path `bk`
on the empty filesystem succeeds. -/
theorem claim_c8_witness : (deleteBackupFS (fun _ => none) "bk").1.success = true :=
  ((claim_c8_delete_backup (fun _ => none) "bk").2.1 (by decide) (by decide) (by decide) rfl).1

/-- C9: `PerformFindReplace` is the identity whenever the find string or
the subject is empty, for every replace string and case-sensitivity
flag — the empty find string is neither an error nor a loop. -/
theorem claim_c9_empty_find_identity (subject find repl : String) (caseSensitive : Bool)
    (h : find = "" ∨ subject = "") :
    performFindReplace subject find repl caseSensitive = subject := by
  have he : ("" : String).isEmpty = true := rfl
  rcases h with h | h <;> subst h <;> simp [performFindReplace, he]

/-- Witness for C9 at a concrete input: an empty find string leaves a
concrete subject unchanged. -/
theorem claim_c9_witness : performFindReplace "abc" "" "zz" true = "abc" :=
  claim_c9_empty_find_identity "abc" "" "zz" true (Or.inl rfl)

theorem dropWhile_append_all {p : Char → Bool} {l1 : List Char} (l2 : List Char)
    (h : ∀ x ∈ l1, p x = true) : (l1 ++ l2).dropWhile p = l2.dropWhile p := by
  induction l1 with
  | nil => rfl
  | cons a as ih =>
    simp only [List.cons_append, List.dropWhile_cons, h a (List.mem_cons_self a as)]
    exact ih (fun x hx => h x (List.mem_cons_of_mem a hx))

theorem takeWhile_append_all {p : Char → Bool} {l1 : List Char} (l2 : List Char)
    (h : ∀ x ∈ l1, p x = true) : (l1 ++ l2).takeWhile p = l1 ++ l2.takeWhile p := by
  induction l1 with
  | nil => rfl
  | cons a as ih =>
    have hpa : p a = true := h a (List.mem_cons_self a as)
    simp [List.cons_append, List.takeWhile_cons, hpa,
      ih (fun x hx => h x (List.mem_cons_of_mem a hx))]

theorem takeWhile_head_false {p : Char → Bool} {l : List Char}
    (h : ∀ c ∈ l.head?, p c = false) : l.takeWhile p = [] := by
  cases l with
  | nil => rfl
  | cons a as => simp [List.takeWhile_cons, h a rfl]

theorem dropWhile_head?_false {p : Char → Bool} :
    ∀ {l : List Char} {c : Char}, (l.dropWhile p).head? = some c → p c = false := by
  intro l
  induction l with
  | nil => intro c h; simp at h
  | cons a as ih =>
    intro c h
    rw [List.dropWhile_cons] at h
    by_cases hp : p a = true
    · rw [if_pos hp] at h
      exact ih h
    · rw [if_neg hp] at h
      simp only [List.head?_cons, Option.some.injEq] at h
      subst h
      simpa using hp

theorem lastDigitRun_of_split {a r b : List Char} (hr : r ≠ [])
    (hdig : ∀ c ∈ r, isDigitCh c = true) (hb : ∀ c ∈ b, isDigitCh c = false)
    (ha : ∀ c ∈ a.getLast?, isDigitCh c = false) :
    lastDigitRun (a ++ r ++ b) = r := by
  unfold lastDigitRun
  have hrev : (a ++ r ++ b).reverse = b.reverse ++ (r.reverse ++ a.reverse) := by
    simp [List.reverse_append]
  rw [hrev]
  have hdrop : (b.reverse ++ (r.reverse ++ a.reverse)).dropWhile (fun c => !isDigitCh c) =
      (r.reverse ++ a.reverse).dropWhile (fun c => !isDigitCh c) := by
    refine dropWhile_append_all _ (fun x hx => ?_)
    rw [List.mem_reverse] at hx
    simp [hb x hx]
  rw [hdrop]
  have hstop : (r.reverse ++ a.reverse).dropWhile (fun c => !isDigitCh c) =
      r.reverse ++ a.reverse := by
    cases hrr : r.reverse with
    | nil => exact absurd (List.reverse_eq_nil_iff.mp hrr) hr
    | cons c t =>
      have hcmem : c ∈ r := by
        rw [← List.mem_reverse, hrr]
        exact List.mem_cons_self c t
      rw [List.cons_append, List.dropWhile_cons]
      simp [hdig c hcmem]
  rw [hstop]
  have htake : (r.reverse ++ a.reverse).takeWhile isDigitCh = r.reverse := by
    rw [takeWhile_append_all a.reverse
      (fun x hx => hdig x (List.mem_reverse.mp hx))]
    rw [takeWhile_head_false, List.append_nil]
    intro d hd
    rw [List.head?_reverse] at hd
    exact ha d hd
  rw [htake, List.reverse_reverse]

theorem lastDigitRun_decomp (l : List Char) :
    l = ((l.reverse.dropWhile (fun c => !isDigitCh c)).dropWhile isDigitCh).reverse ++
        lastDigitRun l ++ (l.reverse.takeWhile (fun c => !isDigitCh c)).reverse := by
  unfold lastDigitRun
  have h1 : (l.reverse.dropWhile (fun c => !isDigitCh c)).takeWhile isDigitCh ++
      (l.reverse.dropWhile (fun c => !isDigitCh c)).dropWhile isDigitCh =
      l.reverse.dropWhile (fun c => !isDigitCh c) :=
    List.takeWhile_append_dropWhile isDigitCh _
  have h2 : l.reverse.takeWhile (fun c => !isDigitCh c) ++
      l.reverse.dropWhile (fun c => !isDigitCh c) = l.reverse :=
    List.takeWhile_append_dropWhile (fun c => !isDigitCh c) l.reverse
  have h3 : (l.reverse.takeWhile (fun c => !isDigitCh c) ++
      ((l.reverse.dropWhile (fun c => !isDigitCh c)).takeWhile isDigitCh ++
        (l.reverse.dropWhile (fun c => !isDigitCh c)).dropWhile isDigitCh)).reverse = l := by
    rw [h1, h2, List.reverse_reverse]
  conv_lhs => rw [← h3]
  simp only [List.reverse_append, List.append_assoc]

/-- C7: `ParseLastNumber` returns `some n` exactly when the filename
splits as `a ++ r ++ b` with `r` a non-empty digit run, `b` free of
digits, `a` not ending in a digit (so `r` is the final maximal digit
run followed only by non-digits), and `n` the value of `r`, which must
not exceed `INT_MAX`; the spec's three examples evaluate as stated. -/
theorem claim_c7_parse_last_number :
    (∀ (s : String) (n : Int),
      parseLastNumber s = some n ↔
        ∃ a r b : List Char,
          s.data = a ++ r ++ b ∧ r ≠ [] ∧ (∀ c ∈ r, isDigitCh c = true) ∧
          (∀ c ∈ b, isDigitCh c = false) ∧
          (∀ c ∈ a.getLast?, isDigitCh c = false) ∧
          n = (digitsVal r : Int) ∧ digitsVal r ≤ 2147483647) ∧
    parseLastNumber "file001.txt" = some 1 ∧
    parseLastNumber "version1.2.3.zip" = some 3 ∧
    parseLastNumber "photo.png" = none := by
  refine ⟨?_, by decide, by decide, by decide⟩
  intro s n
  constructor
  · intro h
    unfold parseLastNumber at h
    by_cases hemp : (lastDigitRun s.data).isEmpty
    · rw [if_pos hemp] at h
      exact absurd h (by simp)
    · rw [if_neg hemp] at h
      by_cases hbound : digitsVal (lastDigitRun s.data) ≤ 2147483647
      · rw [if_pos hbound] at h
        have hn : n = (digitsVal (lastDigitRun s.data) : Int) :=
          (Option.some.inj h).symm
        refine ⟨((s.data.reverse.dropWhile (fun c => !isDigitCh c)).dropWhile
            isDigitCh).reverse,
          lastDigitRun s.data,
          (s.data.reverse.takeWhile (fun c => !isDigitCh c)).reverse,
          lastDigitRun_decomp s.data, ?_, ?_, ?_, ?_, hn, hbound⟩
        · intro hcon
          rw [hcon] at hemp
          simp at hemp
        · intro c hc
          unfold lastDigitRun at hc
          rw [List.mem_reverse] at hc
          exact List.mem_takeWhile_imp hc
        · intro c hc
          rw [List.mem_reverse] at hc
          have := List.mem_takeWhile_imp hc
          simpa using this
        · intro c hc
          rw [List.getLast?_reverse] at hc
          exact dropWhile_head?_false hc
      · rw [if_neg hbound] at h
        exact absurd h (by simp)
  · rintro ⟨a, r, b, hsplit, hr, hdig, hb, ha, hn, hbound⟩
    unfold parseLastNumber
    rw [hsplit, lastDigitRun_of_split hr hdig hb ha]
    rw [if_neg (by simpa using hr), if_pos hbound, hn]

theorem finishResults_errorLog {params : InputParams} {st : PlanState} {flag : Bool} :
    (finishResults params st flag).errorLog = st.err := rfl

theorem finishResults_missing {params : InputParams} {st : PlanState} {flag : Bool} :
    (finishResults params st flag).missingSourceFilesLog = st.missing := rfl

theorem finishResults_err_success {params : InputParams} {st : PlanState} {flag : Bool}
    (hne : st.err ≠ []) : (finishResults params st flag).success = false := by
  have he : st.err.isEmpty = false := by
    cases herr : st.err with
    | nil => exact absurd herr hne
    | cons a l => rfl
  simp [finishResults, he]

theorem finishResults_success_true {params : InputParams} {st : PlanState} {flag : Bool}
    (h1 : st.err = []) (h2 : st.success = true) :
    (finishResults params st flag).success = true := by
  simp [finishResults, h1, h2]

theorem planStepDir_inv {params : InputParams} {disk : Disk} {env : Env} {w : Nat}
    {fp : List String} {st st2 : PlanState} {item : String × Option Int}
    (hst : planStepDir params disk env w fp st item = Except.ok st2)
    (h : st.success = false → st.err ≠ [] ∨ st.missing ≠ []) :
    st2.success = false → st2.err ≠ [] ∨ st2.missing ≠ [] := by
  unfold planStepDir at hst
  split at hst
  · cases hst
    intro _
    exact Or.inr (by simp)
  · simp only [] at hst
    split at hst
    · exact Except.noConfusion hst
    · split at hst
      · cases hst
        intro _
        exact Or.inl (by simp)
      · split at hst
        · cases hst
          exact h
        · split at hst
          · cases hst
            intro _
            exact Or.inl (by simp)
          · split at hst
            · cases hst
              intro _
              exact Or.inr (by simp)
            · cases hst
              exact h

theorem planLoopDir_inv {params : InputParams} {disk : Disk} {env : Env} {w : Nat}
    {fp : List String} (items : List (String × Option Int)) :
    ∀ {st st2 : PlanState},
    planLoopDir params disk env w fp st items = Except.ok st2 →
    (st.success = false → st.err ≠ [] ∨ st.missing ≠ []) →
    (st2.success = false → st2.err ≠ [] ∨ st2.missing ≠ []) := by
  induction items with
  | nil =>
    intro st st2 hst h
    cases hst
    exact h
  | cons x xs ih =>
    intro st st2 hst h
    unfold planLoopDir at hst
    split at hst
    · exact Except.noConfusion hst
    · rename_i stMid hmid
      exact ih hst (planStepDir_inv hmid h)

theorem planStepMan_inv {params : InputParams} {disk : Disk} {env : Env} {total : Nat}
    {uniq : List String} {idx : Int} {st : PlanState} {f : String}
    {pr : PlanState × List String}
    (hst : planStepMan params disk env total uniq idx st f = Except.ok pr)
    (h : st.success = false → st.err ≠ [] ∨ st.missing ≠ []) :
    pr.1.success = false → pr.1.err ≠ [] ∨ pr.1.missing ≠ [] := by
  unfold planStepMan at hst
  split at hst
  · cases hst
    exact h
  · simp only [] at hst
    split at hst
    · split at hst
      · exact Except.noConfusion hst
      · split at hst
        · cases hst
          intro _
          exact Or.inl (by simp)
        · split at hst
          · cases hst
            exact h
          · split at hst
            · cases hst
              intro _
              exact Or.inl (by simp)
            · split at hst
              · cases hst
                intro _
                exact Or.inr (by simp)
              · cases hst
                exact h
    · cases hst
      intro hs
      exact Or.inr (by simp)

theorem planLoopMan_inv {params : InputParams} {disk : Disk} {env : Env} {total : Nat}
    (files : List String) :
    ∀ {uniq : List String} {idx : Int} {st st2 : PlanState},
    planLoopMan params disk env total uniq idx st files = Except.ok st2 →
    (st.success = false → st.err ≠ [] ∨ st.missing ≠ []) →
    (st2.success = false → st2.err ≠ [] ∨ st2.missing ≠ []) := by
  induction files with
  | nil =>
    intro uniq idx st st2 hst h
    cases hst
    exact h
  | cons f fs ih =>
    intro uniq idx st st2 hst h
    unfold planLoopMan at hst
    split at hst
    · exact Except.noConfusion hst
    · rename_i pr hmid
      exact ih hst (planStepMan_inv hmid h)

/-- C3: the planner's `success` flag satisfies the spec's invariant —
a non-empty error log forces `success = false`; an output with empty
error and missing/skipped logs has `success = true` (in particular an
empty plan with no issues); an increment-overflow skip flips the running
flag to false; and a potential-overwrite skip (target on disk, foreign
to the batch) records the overwrite and the skip but leaves the running
success flag and the error log untouched. -/
theorem claim_c3_success_invariant :
    (∀ (params : InputParams) (disk : Disk) (env : Env) (out : OutputResults),
      calculateRenamePlan params disk env = Except.ok out →
      out.errorLog ≠ [] → out.success = false) ∧
    (∀ (params : InputParams) (disk : Disk) (env : Env) (out : OutputResults),
      calculateRenamePlan params disk env = Except.ok out →
      out.errorLog = [] → out.missingSourceFilesLog = [] → out.success = true) ∧
    (∀ (params : InputParams) (disk : Disk) (env : Env) (w : Nat) (fp : List String)
        (st : PlanState) (item : String × Option Int) (fin : String),
      incOverflow params.increment item.2 = false →
      genNameDir params env w item.1 item.2 = Except.ok fin →
      fin ≠ "" →
      iequals item.1 (joinPath (parentOf item.1) fin) = false →
      toLowerStr (joinPath (parentOf item.1) fin) ∉ st.targetsLower →
      (diskLookup disk (joinPath (parentOf item.1) fin)).isSome = true →
      joinPath (parentOf item.1) fin ∉ fp →
      planStepDir params disk env w fp st item = Except.ok
        ⟨st.plan,
         st.targetsLower ++ [toLowerStr (joinPath (parentOf item.1) fin)],
         st.missing ++ [filenameOf item.1 ++
           " (Skipped: Target path already exists and is not part of this rename batch)"],
         st.overwrites ++ [⟨filenameOf item.1, fin, joinPath (parentOf item.1) fin⟩],
         st.general, st.warn, st.err, st.success⟩) ∧
    (∀ (params : InputParams) (disk : Disk) (env : Env) (w : Nat) (fp : List String)
        (st : PlanState) (item : String × Option Int),
      incOverflow params.increment item.2 = true →
      planStepDir params disk env w fp st item = Except.ok
        ⟨st.plan, st.targetsLower,
         st.missing ++ [filenameOf item.1 ++ " (Skipped: Incremented number out of int range)"],
         st.overwrites, st.general, st.warn, st.err, false⟩) := by
  refine ⟨?_, ?_, ?_, ?_⟩
  · intro params disk env out h hne
    unfold calculateRenamePlan at h
    split at h
    · cases h; rfl
    · split at h
      · split at h
        · cases h; rfl
        · split at h
          · cases h; rfl
          · split at h
            · cases h; rfl
            · split at h
              · exact Except.noConfusion h
              · cases h
                rw [finishResults_errorLog] at hne
                exact finishResults_err_success hne
      · split at h
        · cases h; rfl
        · split at h
          · exact Except.noConfusion h
          · cases h
            rw [finishResults_errorLog] at hne
            exact finishResults_err_success hne
  · intro params disk env out h herr hmiss
    unfold calculateRenamePlan at h
    split at h
    · cases h; simp [fatalResults] at herr
    · split at h
      · split at h
        · cases h; simp [fatalResults] at herr
        · split at h
          · cases h; simp [fatalResults] at herr
          · split at h
            · cases h; simp [fatalResults] at herr
            · split at h
              · exact Except.noConfusion h
              · rename_i st hloop
                cases h
                rw [finishResults_errorLog] at herr
                rw [finishResults_missing] at hmiss
                unfold calcPlanDirLoop at hloop
                have hinv := planLoopDir_inv _ hloop
                  (by intro hfalse; exact absurd hfalse (by simp [initState]))
                have hsucc : st.success = true := by
                  cases hs : st.success with
                  | true => rfl
                  | false =>
                    rcases hinv hs with hc | hc
                    · exact absurd herr hc
                    · exact absurd hmiss hc
                exact finishResults_success_true herr hsucc
      · split at h
        · cases h; simp [fatalResults] at herr
        · split at h
          · exact Except.noConfusion h
          · rename_i st hloop
            cases h
            rw [finishResults_errorLog] at herr
            rw [finishResults_missing] at hmiss
            unfold calcPlanManLoop at hloop
            have hinv := planLoopMan_inv _ hloop
              (by intro hfalse; exact absurd hfalse (by simp [initState]))
            have hsucc : st.success = true := by
              cases hs : st.success with
              | true => rfl
              | false =>
                rcases hinv hs with hc | hc
                · exact absurd herr hc
                · exact absurd hmiss hc
            exact finishResults_success_true herr hsucc
  · intro params disk env w fp st item fin hov hgen hfin hid hcf hex hfo
    unfold planStepDir
    rw [hov]
    simp only [Bool.false_eq_true, if_false, hgen]
    rw [if_neg hfin, if_neg (by simp [hid]), if_neg hcf]
    rw [if_pos (by simp [hex, hfo])]
  · intro params disk env w fp st item hov
    unfold planStepDir
    rw [hov]
    simp

/-- Witness for C3 at a concrete input: a valid scan whose wildcard
matches no file yields an empty plan with empty error and
missing/skipped logs, and the theorem concludes `success = true`. -/
theorem claim_c3_witness : c3Out.success = true :=
  claim_c3_success_invariant.2.1 c3Params c3Disk envC c3Out rfl rfl rfl

/-- C4: when a generated target path is already claimed (case-
insensitively) by an earlier item of the batch, the later item alone is
rejected — the step leaves the plan untouched, appends exactly one
batch-conflict error and one skip entry, and flips the running success
flag to false; on the concrete two-file scenario (`a.TXT`, `b.txt`, both
mapping to `same<ext>` targets that collide case-insensitively) the
planner output keeps exactly the earlier file in the plan, logs exactly
one error and one skip, and reports `success = false`. -/
theorem claim_c4_batch_conflict :
    (∀ (params : InputParams) (disk : Disk) (env : Env) (w : Nat) (fp : List String)
        (st : PlanState) (item : String × Option Int) (fin : String),
      incOverflow params.increment item.2 = false →
      genNameDir params env w item.1 item.2 = Except.ok fin →
      fin ≠ "" →
      iequals item.1 (joinPath (parentOf item.1) fin) = false →
      toLowerStr (joinPath (parentOf item.1) fin) ∈ st.targetsLower →
      planStepDir params disk env w fp st item = Except.ok
        ⟨st.plan, st.targetsLower,
         st.missing ++ [filenameOf item.1 ++ " (Skipped: Target path conflict within batch)"],
         st.overwrites, st.general, st.warn,
         st.err ++ ["Error: Generated new path " ++ joinPath (parentOf item.1) fin ++
           " conflicts with another generated path in this batch. Skipping " ++
           filenameOf item.1 ++ "."],
         false⟩) ∧
    (calculateRenamePlan c4Params c4Disk envC).map
        (fun o => (o.renamePlan.map (fun p => p.OldFullPath), o.errorLog.length,
          o.missingSourceFilesLog.length, o.success)) =
      Except.ok (["d/a.TXT"], 1, 1, false) := by
  constructor
  · intro params disk env w fp st item fin hov hgen hfin hid hcf
    unfold planStepDir
    rw [hov]
    simp only [Bool.false_eq_true, if_false, hgen]
    rw [if_neg hfin, if_neg (by simp [hid]), if_pos hcf]
  · rfl

/-- Witness for C4 at a concrete input: applying the conflict-step
clause to file `b.txt` when the batch already claims `d/same.txt`
rejects the item with one error, one skip, and `success = false`. -/
theorem claim_c4_witness :
    (planStepDir c4Params c4Disk envC 2 [] c4StateW ("d/b.txt", none)).map
      (fun s => (s.success, s.err.length, s.missing.length, s.plan.length)) =
      Except.ok (false, 1, 1, 0) := by
  rw [claim_c4_batch_conflict.1 c4Params c4Disk envC 2 [] c4StateW ("d/b.txt", none)
    "same.txt" (by decide) (by decide) (by decide) (by decide) (by decide)]
  rfl

theorem pathLt_total_of_ne {a b : String} (hne : a ≠ b) :
    pathLt a b = true ∨ pathLt b a = true := by
  cases h1 : pathLt a b with
  | true => exact Or.inl rfl
  | false =>
    cases h2 : pathLt b a with
    | true => exact Or.inr rfl
    | false => exact absurd (pathLt_eq_of_incomp h1 h2) hne

theorem insertFound_mem {x z : String × Option Int} :
    ∀ {acc : List (String × Option Int)}, z ∈ insertFound x acc → z = x ∨ z ∈ acc := by
  intro acc
  induction acc with
  | nil => intro h; simpa [insertFound] using h
  | cons y ys ih =>
    intro h
    unfold insertFound at h
    split at h
    · rcases List.mem_cons.mp h with rfl | h
      · exact Or.inl rfl
      · exact Or.inr h
    · split at h
      · rcases List.mem_cons.mp h with rfl | h
        · exact Or.inl rfl
        · exact Or.inr (List.mem_cons_of_mem y h)
      · rcases List.mem_cons.mp h with rfl | h
        · exact Or.inr (List.mem_cons_self _ ys)
        · rcases ih h with h2 | h2
          · exact Or.inl h2
          · exact Or.inr (List.mem_cons_of_mem y h2)

theorem insertFound_sorted {x : String × Option Int} :
    ∀ {acc : List (String × Option Int)},
    acc.Pairwise (fun u v => pathLt u.1 v.1 = true) →
    (insertFound x acc).Pairwise (fun u v => pathLt u.1 v.1 = true) := by
  intro acc
  induction acc with
  | nil => intro _; simp [insertFound]
  | cons y ys ih =>
    intro hp
    obtain ⟨hy, hys⟩ := List.pairwise_cons.mp hp
    unfold insertFound
    split
    · rename_i hlt
      refine List.pairwise_cons.mpr ⟨?_, hp⟩
      intro z hz
      rcases List.mem_cons.mp hz with rfl | hz
      · exact hlt
      · exact pathLt_trans hlt (hy z hz)
    · split
      · rename_i hnlt heq
        refine List.pairwise_cons.mpr ⟨?_, hys⟩
        intro z hz
        rw [heq]
        exact hy z hz
      · rename_i hnlt hne
        have hyx : pathLt y.1 x.1 = true := by
          rcases pathLt_total_of_ne (a := x.1) (b := y.1) (fun hc => hne hc) with h | h
          · exact absurd h (by simp [hnlt])
          · exact h
        refine List.pairwise_cons.mpr ⟨?_, ih hys⟩
        intro z hz
        rcases insertFound_mem hz with rfl | hz
        · exact hyx
        · exact hy z hz

theorem buildFound_sorted_aux (params : InputParams) (extSet : List String)
    (useExtFilter : Bool) (entries : List (String × Entry)) :
    ∀ acc : List (String × Option Int),
    acc.Pairwise (fun u v => pathLt u.1 v.1 = true) →
    (entries.foldl (scanProcessEntry params extSet useExtFilter) acc).Pairwise
      (fun u v => pathLt u.1 v.1 = true) := by
  induction entries with
  | nil => intro acc h; exact h
  | cons e es ih =>
    intro acc h
    rw [List.foldl_cons]
    refine ih _ ?_
    unfold scanProcessEntry
    split
    · exact insertFound_sorted h
    · exact h

theorem buildFound_sorted (params : InputParams) (extSet : List String)
    (useExtFilter : Bool) (entries : List (String × Entry)) :
    (buildFound params extSet useExtFilter entries).Pairwise
      (fun u v => pathLt u.1 v.1 = true) :=
  buildFound_sorted_aux params extSet useExtFilter entries [] List.Pairwise.nil

theorem planStepDir_plan {params : InputParams} {disk : Disk} {env : Env} {w : Nat}
    {fp : List String} {st st2 : PlanState} {item : String × Option Int}
    (hst : planStepDir params disk env w fp st item = Except.ok st2) :
    st2.plan = st.plan ∨
      ∃ op : RenameOperation, op.OldFullPath = item.1 ∧ st2.plan = st.plan ++ [op] := by
  unfold planStepDir at hst
  split at hst
  · cases hst; exact Or.inl rfl
  · simp only [] at hst
    split at hst
    · exact Except.noConfusion hst
    · split at hst
      · cases hst; exact Or.inl rfl
      · split at hst
        · cases hst; exact Or.inl rfl
        · split at hst
          · cases hst; exact Or.inl rfl
          · split at hst
            · cases hst; exact Or.inl rfl
            · cases hst
              exact Or.inr ⟨_, rfl, rfl⟩

theorem planLoopDir_plan {params : InputParams} {disk : Disk} {env : Env} {w : Nat}
    {fp : List String} (items : List (String × Option Int)) :
    ∀ {st st2 : PlanState},
    planLoopDir params disk env w fp st items = Except.ok st2 →
    ∃ l : List RenameOperation, st2.plan = st.plan ++ l ∧
      (l.map (fun op => op.OldFullPath)).Sublist (items.map (fun x => x.1)) := by
  induction items with
  | nil =>
    intro st st2 hst
    cases hst
    exact ⟨[], by simp, List.nil_sublist _⟩
  | cons x xs ih =>
    intro st st2 hst
    unfold planLoopDir at hst
    split at hst
    · exact Except.noConfusion hst
    · rename_i stMid hmid
      obtain ⟨l, hpl, hsub⟩ := ih hst
      rcases planStepDir_plan hmid with hcase | ⟨op, hop, hcase⟩
      · exact ⟨l, by rw [hpl, hcase], hsub.cons _⟩
      · refine ⟨op :: l, by rw [hpl, hcase]; simp, ?_⟩
        simpa [hop] using hsub.cons₂ x.1

theorem finishResults_plan {params : InputParams} {st : PlanState} {flag : Bool} :
    (finishResults params st flag).renamePlan = st.plan := rfl

theorem find_key_nodup :
    ∀ {l : List (String × Entry)}, (l.map Prod.fst).Nodup →
    ∀ {p : String} {v : Entry}, (p, v) ∈ l →
    l.find? (fun e => e.1 == p) = some (p, v) := by
  intro l
  induction l with
  | nil => intro _ p v h; simp at h
  | cons e t ih =>
    intro hnd p v hmem
    rw [List.map_cons, List.nodup_cons] at hnd
    rcases List.mem_cons.mp hmem with heq | htail
    · rw [← heq]
      exact List.find?_cons_of_pos _ (by simp)
    · by_cases hep : e.1 = p
      · exact absurd (List.mem_map.mpr ⟨(p, v), htail, rfl⟩) (hep ▸ hnd.1)
      · rw [List.find?_cons_of_neg _ (by simp [hep])]
        exact ih hnd.2 htail

theorem diskLookup_perm {d1 d2 : List (String × Entry)} (hp : d1.Perm d2)
    (hnd : (d1.map Prod.fst).Nodup) (p : String) : diskLookup d1 p = diskLookup d2 p := by
  have hnd2 : (d2.map Prod.fst).Nodup := ((hp.map Prod.fst).nodup_iff).mp hnd
  by_cases hmem : p ∈ d1.map Prod.fst
  · obtain ⟨e, he, hkey⟩ := List.mem_map.mp hmem
    obtain ⟨k, v⟩ := e
    simp only [] at hkey
    subst hkey
    unfold diskLookup
    rw [find_key_nodup hnd he, find_key_nodup hnd2 (hp.subset he)]
  · have hmem2 : p ∉ d2.map Prod.fst := fun hc => hmem (((hp.map Prod.fst).mem_iff).mpr hc)
    have h1 : d1.find? (fun e => e.1 == p) = none := by
      rw [List.find?_eq_none]
      intro x hx
      simp only [beq_iff_eq]
      intro hc
      exact hmem (List.mem_map.mpr ⟨x, hx, hc⟩)
    have h2 : d2.find? (fun e => e.1 == p) = none := by
      rw [List.find?_eq_none]
      intro x hx
      simp only [beq_iff_eq]
      intro hc
      exact hmem2 (List.mem_map.mpr ⟨x, hx, hc⟩)
    unfold diskLookup
    rw [h1, h2]

theorem insertFound_perm {x : String × Option Int} :
    ∀ {acc : List (String × Option Int)}, x.1 ∉ acc.map Prod.fst →
    (insertFound x acc).Perm (x :: acc) := by
  intro acc
  induction acc with
  | nil => intro _; simp [insertFound]
  | cons y ys ih =>
    intro h
    rw [List.map_cons, List.mem_cons] at h
    push_neg at h
    unfold insertFound
    split
    · exact List.Perm.refl _
    · split
      · exact absurd (by assumption) h.1
      · exact ((ih h.2).cons y).trans (List.Perm.swap x y ys)

theorem scanQual_key {params : InputParams} {extSet : List String} {useExtFilter : Bool}
    {e : String × Entry} {x : String × Option Int}
    (hq : scanQual params extSet useExtFilter e = some x) : x.1 = e.1 := by
  unfold scanQual at hq
  split at hq
  · cases hq; rfl
  · exact Option.noConfusion hq

theorem filterMap_scanQual_keys {params : InputParams} {extSet : List String}
    {useExtFilter : Bool} :
    ∀ l : List (String × Entry),
    ((l.filterMap (scanQual params extSet useExtFilter)).map Prod.fst).Sublist
      (l.map Prod.fst) := by
  intro l
  induction l with
  | nil => simp
  | cons e es ih =>
    cases hq : scanQual params extSet useExtFilter e with
    | none =>
      rw [List.filterMap_cons_none hq, List.map_cons]
      exact ih.cons e.1
    | some x =>
      rw [List.filterMap_cons_some hq, List.map_cons, List.map_cons, scanQual_key hq]
      exact ih.cons₂ e.1

theorem buildFound_perm_aux (params : InputParams) (extSet : List String)
    (useExtFilter : Bool) :
    ∀ (entries : List (String × Entry)) (acc : List (String × Option Int)),
    (acc.map Prod.fst ++
      ((entries.filterMap (scanQual params extSet useExtFilter)).map Prod.fst)).Nodup →
    (entries.foldl (scanProcessEntry params extSet useExtFilter) acc).Perm
      ((entries.filterMap (scanQual params extSet useExtFilter)) ++ acc) := by
  intro entries
  induction entries with
  | nil => intro acc _; simp
  | cons e es ih =>
    intro acc h
    rw [List.foldl_cons]
    unfold scanProcessEntry
    cases hq : scanQual params extSet useExtFilter e with
    | none =>
      rw [List.filterMap_cons_none hq]
      rw [List.filterMap_cons_none hq] at h
      exact ih acc h
    | some x =>
      rw [List.filterMap_cons_some hq]
      rw [List.filterMap_cons_some hq] at h
      have hmid : (acc.map Prod.fst ++ x.1 ::
          ((es.filterMap (scanQual params extSet useExtFilter)).map Prod.fst)).Perm
          (x.1 :: (acc.map Prod.fst ++
            ((es.filterMap (scanQual params extSet useExtFilter)).map Prod.fst))) :=
        List.perm_middle
      have hnodup_mid := hmid.nodup_iff.mp (by simpa using h)
      rw [List.nodup_cons] at hnodup_mid
      have hx_not_acc : x.1 ∉ acc.map Prod.fst := fun hc =>
        hnodup_mid.1 (List.mem_append.mpr (Or.inl hc))
      have hperm1 : (insertFound x acc).Perm (x :: acc) := insertFound_perm hx_not_acc
      have hkeys : ((insertFound x acc).map Prod.fst).Perm (x.1 :: acc.map Prod.fst) :=
        hperm1.map Prod.fst
      have hnd2 : ((insertFound x acc).map Prod.fst ++
          ((es.filterMap (scanQual params extSet useExtFilter)).map Prod.fst)).Nodup := by
        refine ((hkeys.append_right _).nodup_iff).mpr ?_
        rw [List.cons_append]
        rw [List.nodup_cons]
        refine ⟨?_, hnodup_mid.2⟩
        intro hc
        rcases List.mem_append.mp hc with hc | hc
        · exact hx_not_acc hc
        · exact hnodup_mid.1 (List.mem_append.mpr (Or.inr hc))
      have hstep := ih (insertFound x acc) hnd2
      exact hstep.trans ((List.Perm.append_left _ hperm1).trans List.perm_middle)

theorem sortedKeys_perm_eq :
    ∀ {l1 l2 : List (String × Option Int)}, l1.Perm l2 →
    l1.Pairwise (fun u v => pathLt u.1 v.1 = true) →
    l2.Pairwise (fun u v => pathLt u.1 v.1 = true) → l1 = l2 := by
  intro l1
  induction l1 with
  | nil => intro l2 hp _ _; exact (List.Perm.eq_nil hp.symm).symm
  | cons a t1 ih =>
    intro l2 hp h1 h2
    cases l2 with
    | nil => exact absurd (List.Perm.eq_nil hp) (by simp)
    | cons b t2 =>
      by_cases hab : a = b
      · subst hab
        rw [ih hp.cons_inv (List.pairwise_cons.mp h1).2 (List.pairwise_cons.mp h2).2]
      · have ha2 : a ∈ b :: t2 := hp.subset (List.mem_cons_self a t1)
        have hat2 : a ∈ t2 := by
          rcases List.mem_cons.mp ha2 with hc | hc
          · exact absurd hc hab
          · exact hc
        have hb1 : b ∈ a :: t1 := hp.symm.subset (List.mem_cons_self b t2)
        have hbt1 : b ∈ t1 := by
          rcases List.mem_cons.mp hb1 with hc | hc
          · exact absurd hc.symm hab
          · exact hc
        have hlt1 : pathLt a.1 b.1 = true := (List.pairwise_cons.mp h1).1 b hbt1
        have hlt2 : pathLt b.1 a.1 = true := (List.pairwise_cons.mp h2).1 a hat2
        exact absurd (pathLt_asymm hlt1) (by simp [hlt2])

theorem buildFound_eq_of_perm {params : InputParams} {extSet : List String}
    {useExtFilter : Bool} {e1 e2 : List (String × Entry)}
    (hp : e1.Perm e2) (hnd : (e1.map Prod.fst).Nodup) :
    buildFound params extSet useExtFilter e1 = buildFound params extSet useExtFilter e2 := by
  have hnd2 : (e2.map Prod.fst).Nodup := ((hp.map Prod.fst).nodup_iff).mp hnd
  have hk1 : ((e1.filterMap (scanQual params extSet useExtFilter)).map Prod.fst).Nodup :=
    hnd.sublist (filterMap_scanQual_keys e1)
  have hk2 : ((e2.filterMap (scanQual params extSet useExtFilter)).map Prod.fst).Nodup :=
    hnd2.sublist (filterMap_scanQual_keys e2)
  have h1 := buildFound_perm_aux params extSet useExtFilter e1 [] (by simpa using hk1)
  have h2 := buildFound_perm_aux params extSet useExtFilter e2 [] (by simpa using hk2)
  refine sortedKeys_perm_eq ?_ (buildFound_sorted params extSet useExtFilter e1)
    (buildFound_sorted params extSet useExtFilter e2)
  refine (h1.trans ?_).trans h2.symm
  simpa using hp.filterMap (scanQual params extSet useExtFilter)

theorem planStepDir_congr {params : InputParams} {d1 d2 : Disk} {env : Env} {w : Nat}
    {fp : List String} (h : ∀ p, diskLookup d1 p = diskLookup d2 p)
    (st : PlanState) (item : String × Option Int) :
    planStepDir params d1 env w fp st item = planStepDir params d2 env w fp st item := by
  unfold planStepDir
  simp only [h]

theorem planLoopDir_congr {params : InputParams} {d1 d2 : Disk} {env : Env} {w : Nat}
    {fp : List String} (h : ∀ p, diskLookup d1 p = diskLookup d2 p)
    (items : List (String × Option Int)) :
    ∀ st : PlanState,
    planLoopDir params d1 env w fp st items = planLoopDir params d2 env w fp st items := by
  induction items with
  | nil => intro st; rfl
  | cons x xs ih =>
    intro st
    unfold planLoopDir
    rw [planStepDir_congr h st x]
    cases hmid : planStepDir params d2 env w fp st x with
    | error e => rfl
    | ok st2 => exact ih st2

theorem planStepMan_congr {params : InputParams} {d1 d2 : Disk} {env : Env} {total : Nat}
    (h : ∀ p, diskLookup d1 p = diskLookup d2 p)
    (uniq : List String) (idx : Int) (st : PlanState) (f : String) :
    planStepMan params d1 env total uniq idx st f =
      planStepMan params d2 env total uniq idx st f := by
  unfold planStepMan
  simp only [h]

theorem planLoopMan_congr {params : InputParams} {d1 d2 : Disk} {env : Env} {total : Nat}
    (h : ∀ p, diskLookup d1 p = diskLookup d2 p) (files : List String) :
    ∀ (uniq : List String) (idx : Int) (st : PlanState),
    planLoopMan params d1 env total uniq idx st files =
      planLoopMan params d2 env total uniq idx st files := by
  induction files with
  | nil => intro uniq idx st; rfl
  | cons f fs ih =>
    intro uniq idx st
    unfold planLoopMan
    rw [planStepMan_congr h uniq idx st f]
    cases hmid : planStepMan params d2 env total uniq idx st f with
    | error e => rfl
    | ok pr => exact ih pr.2 (idx + 1) pr.1

/-- C10: in DirectoryScan mode the produced plan is strictly increasing
in `OldFullPath` (the candidate files are accumulated in a path-ordered
map, and the plan is an order-preserving selection from it), and the
whole planner output is invariant under permuting the directory listing
— the plan order does not depend on the order in which the walk
discovers the files. -/
theorem claim_c10_dirscan_plan_sorted :
    (∀ (params : InputParams) (disk : Disk) (env : Env) (out : OutputResults),
      params.mode = RenamingMode.DirectoryScan →
      calculateRenamePlan params disk env = Except.ok out →
      (out.renamePlan.map (fun op => op.OldFullPath)).Pairwise
        (fun p q => pathLt p q = true)) ∧
    (∀ (params : InputParams) (env : Env) (d1 d2 : Disk),
      d1.Perm d2 → (d1.map Prod.fst).Nodup →
      calculateRenamePlan params d1 env = calculateRenamePlan params d2 env) := by
  constructor
  · intro params disk env out hmode h
    unfold calculateRenamePlan at h
    rw [hmode] at h
    split at h
    · cases h; simp [fatalResults]
    · split at h
      · split at h
        · cases h; simp [fatalResults]
        · split at h
          · cases h; simp [fatalResults]
          · split at h
            · cases h; simp [fatalResults]
            · split at h
              · exact Except.noConfusion h
              · rename_i st hloop
                cases h
                rw [finishResults_plan]
                unfold calcPlanDirLoop at hloop
                obtain ⟨l, hpl, hsub⟩ := planLoopDir_plan _ hloop
                have hl : st.plan = l := by simpa [initState] using hpl
                rw [hl]
                have hsorted := buildFound_sorted params (dirScanExtSet params)
                  (dirScanUseExt params) (scanEntries disk params)
                have hkeys : ((dirScanFound params disk).map (fun x => x.1)).Pairwise
                    (fun p q => pathLt p q = true) := by
                  rw [List.pairwise_map]
                  exact hsorted
                exact hkeys.sublist hsub
      · contradiction
  · intro params env d1 d2 hp hnd
    have hlk : ∀ p, diskLookup d1 p = diskLookup d2 p := diskLookup_perm hp hnd
    have hscan : (scanEntries d1 params).Perm (scanEntries d2 params) := hp.filter _
    have hscannd : ((scanEntries d1 params).map Prod.fst).Nodup :=
      hnd.sublist ((List.filter_sublist d1).map Prod.fst)
    have hfound : dirScanFound params d1 = dirScanFound params d2 := by
      unfold dirScanFound
      unfold buildFound
      exact buildFound_eq_of_perm hscan hscannd
    have hempty : (scanEntries d1 params).isEmpty = (scanEntries d2 params).isEmpty := by
      have hlen := hscan.length_eq
      cases e1 : scanEntries d1 params <;> cases e2 : scanEntries d2 params <;> simp_all
    have hdirloop : calcPlanDirLoop params d1 env = calcPlanDirLoop params d2 env := by
      unfold calcPlanDirLoop
      rw [hfound, planLoopDir_congr hlk]
    have hmanloop : calcPlanManLoop params d1 env = calcPlanManLoop params d2 env := by
      unfold calcPlanManLoop
      rw [planLoopMan_congr hlk]
    unfold calculateRenamePlan
    rw [hlk params.targetDirectory, hempty, hdirloop, hmanloop]

/-- Witness for C10 at a concrete input: the two-file scan scenario
(files listed on disk out of path order) yields a plan whose source
paths are strictly increasing. -/
theorem claim_c10_witness :
    (c10Out.renamePlan.map (fun op => op.OldFullPath)).Pairwise
      (fun p q => pathLt p q = true) :=
  claim_c10_dirscan_plan_sorted.1 c10Params c10Disk envC c10Out rfl rfl

theorem matchesHere_refl : ∀ l : List Char, matchesHere charEq l l = true := by
  intro l
  induction l with
  | nil => rfl
  | cons c cs ih => simp [matchesHere, charEq, ih]

theorem findFrom_not_mem {c : Char} (ps : List Char) :
    ∀ l : List Char, c ∉ l → findFrom charEq (c :: ps) l = none := by
  intro l
  induction l with
  | nil => intro _; rfl
  | cons d ds ih =>
    intro h
    rw [List.mem_cons] at h
    push_neg at h
    unfold findFrom
    have hm : matchesHere charEq (c :: ps) (d :: ds) = false := by
      simp [matchesHere, charEq, h.1]
    rw [hm]
    simp [ih h.2]

theorem findFromAt_zero (eqc : Char → Char → Bool) (pat l : List Char) :
    findFromAt eqc pat l 0 = findFrom eqc pat l := by
  unfold findFromAt
  rw [List.drop_zero]
  cases findFrom eqc pat l <;> simp

theorem findFromAt_ge {pat : List Char} (hp : pat ≠ []) (l : List Char) (pos : Nat)
    (h : l.length ≤ pos) : findFromAt charEq pat l pos = none := by
  unfold findFromAt
  rw [List.drop_eq_nil_of_le h]
  cases pat with
  | nil => exact absurd rfl hp
  | cons c cs => rfl

theorem phReplaceAll_no_occ {pat repl subject : String}
    (h : findFrom charEq pat.data subject.data = none) :
    phReplaceAll pat repl subject = subject := by
  unfold phReplaceAll
  unfold phLoop
  rw [findFromAt_zero, h]

theorem phReplaceAll_self {pat repl : String} {c : Char} {cs : List Char}
    (hpat : pat.data = c :: cs) :
    phReplaceAll pat repl pat = repl := by
  have hne : pat.data ≠ [] := by rw [hpat]; simp
  have h0 : findFromAt charEq pat.data pat.data 0 = some 0 := by
    rw [findFromAt_zero, hpat]
    unfold findFrom
    rw [matchesHere_refl (c :: cs)]
    simp
  have hsplice : spliceAt pat.data repl.data 0 pat.data.length = repl.data := by
    unfold spliceAt
    simp
  have hlen : pat.length = cs.length + 1 := by
    show pat.data.length = cs.length + 1
    rw [hpat]
    rfl
  unfold phReplaceAll
  rw [hlen]
  unfold phLoop
  rw [h0]
  simp only [hsplice]
  unfold phLoop
  rw [findFromAt_ge hne repl.data (0 + repl.data.length) (by omega)]

theorem randomReplace_no_tok (env : Env) (s : String) (h : findRandomTok s.data = none) :
    randomReplace env s = Except.ok s := by
  unfold randomReplace
  unfold randLoop
  rw [h]
  rfl

theorem phReplaceAll_head_lt (pat repl subject : String)
    (hpat : pat.data.head? = some '<') (h : '<' ∉ subject.data) :
    phReplaceAll pat repl subject = subject := by
  apply phReplaceAll_no_occ
  cases hd : pat.data with
  | nil => rw [hd] at hpat; exact absurd hpat (by simp)
  | cons c cs =>
    rw [hd] at hpat
    have hc : c = '<' := by simpa using hpat
    rw [hc]
    exact findFrom_not_mem cs subject.data h

theorem metaIf_empty (env : Env) (a b : String) :
    (if ("" : String) ≠ "" && env.fileExists "" then a else b) = b := by
  have h : (decide (("" : String) ≠ "") && env.fileExists "") = false := by
    rw [show (decide (("" : String) ≠ "")) = false from by decide]
    rfl
  simp only [h, Bool.false_eq_true, if_false]

theorem digitChar_mem (d : Nat) : digitChar d ∈ decDigits := by
  by_cases h : d < 10
  · interval_cases d <;> decide
  · rw [digitChar, List.getD_eq_default]
    · decide
    · simp only [decDigits, List.length]
      omega

theorem natDigitsAux_chars : ∀ fuel n : Nat, ∀ c ∈ natDigitsAux fuel n, c ∈ decDigits := by
  intro fuel
  induction fuel with
  | zero =>
    intro n c hc
    simp only [natDigitsAux] at hc
    exact absurd hc (List.not_mem_nil c)
  | succ f ih =>
    intro n c hc
    cases n with
    | zero =>
      simp only [natDigitsAux] at hc
      exact absurd hc (List.not_mem_nil c)
    | succ m =>
      simp only [natDigitsAux, List.mem_append, List.mem_singleton] at hc
      rcases hc with hc | hc
      · exact ih _ c hc
      · rw [hc]
        exact digitChar_mem _

theorem natStr_chars (n : Nat) : ∀ c ∈ natStr n, c ∈ decDigits := by
  intro c hc
  unfold natStr at hc
  split at hc
  · simp only [List.mem_singleton] at hc
    rw [hc]
    decide
  · exact natDigitsAux_chars _ _ c hc

theorem natStr_ne_nil (n : Nat) : natStr n ≠ [] := by
  unfold natStr
  split
  · simp
  · rename_i h
    cases n with
    | zero => exact absurd rfl h
    | succ m =>
      simp only [natDigitsAux]
      simp

theorem formatNumber_chars (number width : Int) :
    ∀ c ∈ (formatNumber number width).data, c = '-' ∨ c ∈ decDigits := by
  intro c hc
  unfold formatNumber at hc
  split at hc
  · simp only [List.mem_cons] at hc
    rcases hc with rfl | hc
    · exact Or.inl rfl
    · exact Or.inr (natStr_chars _ c hc)
  · simp only [List.mem_append] at hc
    rcases hc with hc | hc
    · rw [List.eq_of_mem_replicate hc]
      exact Or.inr (by decide)
    · exact Or.inr (natStr_chars _ c hc)

theorem formatNumber_ne_nil (number width : Int) : (formatNumber number width).data ≠ [] := by
  unfold formatNumber
  split
  · simp
  · simp only []
    intro h
    rw [List.append_eq_nil] at h
    exact natStr_ne_nil _ h.2

theorem formatNumber_no_lt (number width : Int) : '<' ∉ (formatNumber number width).data := by
  intro hc
  rcases formatNumber_chars number width '<' hc with h | h <;> revert h <;> decide

theorem map_id_of_forall {α : Type} (f : α → α) :
    ∀ l : List α, (∀ a ∈ l, f a = a) → l.map f = l := by
  intro l
  induction l with
  | nil => intro _; rfl
  | cons a as ih =>
    intro h
    rw [List.map_cons, h a (List.mem_cons_self a as),
      ih (fun b hb => h b (List.mem_cons_of_mem a hb))]

theorem sanitizeResult_plain (r : String) (hne : r.data ≠ [])
    (hch : ∀ c ∈ r.data, c = '-' ∨ c ∈ decDigits) :
    sanitizeResult r = r := by
  have hdotmem : '.' ∉ r.data := by
    intro h
    rcases hch '.' h with h' | h' <;> revert h' <;> decide
  have hdot : findLastIdx '.' r.data = none := by
    unfold findLastIdx
    rw [findFrom_not_mem [] r.data.reverse (by
      rw [List.mem_reverse]
      exact hdotmem)]
    rfl
  have hsan : ∀ c ∈ r.data, sanitiseChar c = c := by
    intro c hc
    rcases hch c hc with rfl | h'
    · decide
    · fin_cases h' <;> decide
  have h1 : r.data.isEmpty = false := by
    cases hd : r.data with
    | nil => exact absurd hd hne
    | cons a as => rfl
  have h2 : r.data ≠ ['.'] := fun h => hdotmem (by rw [h]; decide)
  have h3 : r.data ≠ ['.', '.'] := fun h => hdotmem (by rw [h]; decide)
  have h4 : r.data ≠ ['_'] := by
    intro h
    have hm : '_' ∈ r.data := by rw [h]; decide
    rcases hch '_' hm with h' | h' <;> revert h' <;> decide
  have hstem : sanitiseStem r.data = r.data := by
    unfold sanitiseStem
    rw [if_neg (by rw [h1]; decide)]
    simp only []
    rw [map_id_of_forall sanitiseChar r.data hsan]
    rw [if_neg (by
      rw [h1, decide_eq_false h2, decide_eq_false h3]
      decide)]
  unfold sanitizeResult
  simp only [hdot]
  rw [hstem]
  rw [if_neg (by
    rintro (⟨h, -⟩ | ⟨h, -⟩)
    · exact h4 h
    · exact hne h)]
  rw [List.append_nil]

/-- C6 counterexample: the claim says `<index>` is zero-padded to
`ceil(log10(totalFiles))` digits (minimum 1).  At `totalFiles = 10` that
formula gives width `ceil(log10 10) = 1`, so index 5 would render as
`"5"`; the code pads to `floor(log10 10) + 1 = 2` digits and
`ReplacePlaceholders` produces `"05"`. -/
theorem claim_c6_counterexample :
    replacePlaceholders envC "<index>" RenamingMode.ManualSelection 5 10
        "f.txt" "f" ".txt" none none 0 "" "" = Except.ok "05" ∧
    specManualIndexWidth 10 = 1 ∧
    formatNumber 5 ((specManualIndexWidth 10 : Int)) = "5" ∧
    ("05" : String) ≠ "5" :=
  ⟨rfl, rfl, rfl, by decide⟩

/-- C6 (amended): in ManualSelection mode, for every environment, every
index and every `totalFiles ≥ 1`, `ReplacePlaceholders` substitutes
`<index>` with the index zero-padded to `floor(log10(totalFiles)) + 1`
digits — not `ceil(log10(totalFiles))`; the two formulas disagree at
every power of ten from 10 up — and it clears `<num>` and `<orig_num>`
to the empty string. -/
theorem claim_c6_amended (env : Env) (idx : Int) (total : Nat) (htot : 1 ≤ total) :
    replacePlaceholders env "<index>" RenamingMode.ManualSelection idx total
        "f.txt" "f" ".txt" none none 0 "" "" =
      Except.ok (formatNumber idx ((manualIndexWidth total : Int))) ∧
    manualIndexWidth total = floorLog10 total + 1 ∧
    replacePlaceholders env "x<num>y<orig_num>z" RenamingMode.ManualSelection idx total
        "f.txt" "f" ".txt" none none 0 "" "" = Except.ok "xyz" := by
  refine ⟨?_, ?_, ?_⟩
  · have hlt : '<' ∉ (formatNumber idx ((manualIndexWidth total : Int))).data :=
      formatNumber_no_lt _ _
    unfold replacePlaceholders
    simp only []
    rw [show phReplaceAll "<parent_dir>" "" "<index>" = "<index>" from rfl]
    rw [metaIf_empty env]
    rw [randomReplace_no_tok env "<index>" rfl]
    simp only [Except.map]
    have hdt : ¬((containsSub "<YYYY>" "<index>" || containsSub "<MM>" "<index>" ||
        containsSub "<DD>" "<index>" || containsSub "<hh>" "<index>" ||
        containsSub "<mm>" "<index>" || containsSub "<ss>" "<index>") = true) := by decide
    rw [if_neg hdt]
    rw [phReplaceAll_self (show ("<index>" : String).data =
      '<' :: ['i', 'n', 'd', 'e', 'x', '>'] from rfl)]
    rw [phReplaceAll_head_lt "<orig_name>" "f"
      (formatNumber idx ((manualIndexWidth total : Int))) rfl hlt]
    rw [phReplaceAll_head_lt "<orig_ext>" ".txt"
      (formatNumber idx ((manualIndexWidth total : Int))) rfl hlt]
    rw [phReplaceAll_head_lt "<ext>" ".txt"
      (formatNumber idx ((manualIndexWidth total : Int))) rfl hlt]
    rw [phReplaceAll_head_lt "<num>" ""
      (formatNumber idx ((manualIndexWidth total : Int))) rfl hlt]
    rw [phReplaceAll_head_lt "<orig_num>" ""
      (formatNumber idx ((manualIndexWidth total : Int))) rfl hlt]
    rw [sanitizeResult_plain (formatNumber idx ((manualIndexWidth total : Int)))
      (formatNumber_ne_nil _ _) (formatNumber_chars _ _)]
  · unfold manualIndexWidth
    rw [if_pos (by omega : total > 0)]
    omega
  · unfold replacePlaceholders
    simp only []
    rw [show phReplaceAll "<parent_dir>" "" "x<num>y<orig_num>z" = "x<num>y<orig_num>z"
      from rfl]
    rw [metaIf_empty env]
    rw [randomReplace_no_tok env "x<num>y<orig_num>z" rfl]
    simp only [Except.map]
    have hdt : ¬((containsSub "<YYYY>" "x<num>y<orig_num>z" ||
        containsSub "<MM>" "x<num>y<orig_num>z" ||
        containsSub "<DD>" "x<num>y<orig_num>z" ||
        containsSub "<hh>" "x<num>y<orig_num>z" ||
        containsSub "<mm>" "x<num>y<orig_num>z" ||
        containsSub "<ss>" "x<num>y<orig_num>z") = true) := by decide
    rw [if_neg hdt]
    rw [phReplaceAll_no_occ (show findFrom charEq ("<index>" : String).data
      ("x<num>y<orig_num>z" : String).data = none from rfl)]
    rfl

/-- C6 amended witness: at `env = envC`, `idx = 5`, `total = 10` the
hypothesis `1 ≤ 10` holds and the amended statement evaluates as
claimed. -/
theorem claim_c6_amended_witness :
    1 ≤ 10 ∧
    (replacePlaceholders envC "<index>" RenamingMode.ManualSelection 5 10
        "f.txt" "f" ".txt" none none 0 "" "" =
      Except.ok (formatNumber 5 ((manualIndexWidth 10 : Int))) ∧
    manualIndexWidth 10 = floorLog10 10 + 1 ∧
    replacePlaceholders envC "x<num>y<orig_num>z" RenamingMode.ManualSelection 5 10
        "f.txt" "f" ".txt" none none 0 "" "" = Except.ok "xyz") :=
  ⟨by decide, claim_c6_amended envC 5 10 (by decide)⟩

end RenameUtility
